import Mathlib

/-!
# CurrencyConverter.jsx: a shallow embedding

The component `CurrencyConverter` of `src/CurrencyConverter.jsx` is modelled as a record of its
seven `useState` cells, its event handlers, its two effects and its render function.  The builtins
of the language that the component calls (`RegExp.prototype.test`, `parseFloat`, the product of
two Numbers, `Number.prototype.toFixed`, the conversion of a Number to a String) are modelled
after ECMA-262, with binary64 values represented exactly by natural numbers.
-/

namespace CurrencyConverter

/-! ## The amount filter `/^\d*\.?\d*$/` -/

/-- The class escape `\d` of a regular expression without the `u` flag: the ten characters
`0` to `9`, as an alternation. -/
def digitClass : RegularExpression Char :=
  .char '0' + .char '1' + .char '2' + .char '3' + .char '4' +
  .char '5' + .char '6' + .char '7' + .char '8' + .char '9'

/-- The quantifier `?`: the expression or the empty string. -/
def optional (r : RegularExpression Char) : RegularExpression Char := r + 1

/-- The body of `/^\d*\.?\d*$/` between its anchors: `\d*`, then `\.?`, then `\d*`. -/
def amountPattern : RegularExpression Char :=
  digitClass.star * optional (.char '.') * digitClass.star

/-- The method `RegExp.prototype.test` for a pattern anchored by `^` and `$` (no `m` flag):
the whole string has to match. -/
def regexTest (r : RegularExpression Char) (value : String) : Bool :=
  r.rmatch value.toList

/-- The condition of `handleAmountChange` (line 87):
`value === '' || /^\d*\.?\d*$/.test(value)`. -/
def amountAccepted (value : String) : Bool :=
  value == "" || regexTest amountPattern value

/-! ## Numbers

A Number is a binary64 value.  A finite one is `(-1)^neg * m * 2^e / 2^1074` with `m < 2^53`
and `e ≤ 2045`; it is normal when `2^52 ≤ m`, and else `e = 0` (a subnormal, or a zero when
`m = 0`).  With this normal form two Numbers are the same value (in the sense of `Object.is`)
exactly when they are equal as terms. -/

/-- The Number values of the language. -/
inductive JSNumber
  | nan
  | inf (neg : Bool)
  | fin (neg : Bool) (m : Nat) (e : Nat)
  deriving DecidableEq, Repr

/-- The number of binary digits of `n`, by halving (at most `fuel` times). -/
def bitLengthAux : Nat → Nat → Nat
  | 0, _ => 0
  | fuel + 1, n => if n = 0 then 0 else bitLengthAux fuel (n / 2) + 1

/-- The number of binary digits of `n` (`0` for `0`). -/
def bitLength (n : Nat) : Nat := bitLengthAux n n

/-- The integer nearest to `a / b`, the even one of the two when `a / b` lies half way. -/
def roundHalfEven (a b : Nat) : Nat :=
  if 2 * (a % b) < b then a / b
  else if b < 2 * (a % b) then a / b + 1
  else if (a / b) % 2 = 0 then a / b else a / b + 1

/-- The Number nearest to `(-1)^neg * num / den` (round to nearest, ties to even; overflow
gives an infinity, underflow a subnormal or a zero): the conversion written `𝔽` in ECMA-262. -/
def roundDouble (neg : Bool) (num den : Nat) : JSNumber :=
  let scaled := num * 2 ^ 1074
  let e := bitLength (scaled / den) - 53
  let m := roundHalfEven scaled (den * 2 ^ e)
  let e2 := if m = 2 ^ 53 then e + 1 else e
  let m2 := if m = 2 ^ 53 then 2 ^ 52 else m
  if 2045 < e2 then .inf neg else .fin neg m2 e2

/-- The product `x * y` of two Numbers (`Number::multiply`). -/
def JSNumber.mul : JSNumber → JSNumber → JSNumber
  | .nan, _ => .nan
  | _, .nan => .nan
  | .inf a, .inf b => .inf (a != b)
  | .inf a, .fin b m _ => if m = 0 then .nan else .inf (a != b)
  | .fin a m _, .inf b => if m = 0 then .nan else .inf (a != b)
  | .fin a m e, .fin b m2 e2 => roundDouble (a != b) (m * m2 * 2 ^ (e + e2)) (2 ^ 2148)

/-- The conversion `ToBoolean` on a Number: false for `NaN`, `+0` and `-0`. -/
def JSNumber.truthy : JSNumber → Bool
  | .nan => false
  | .inf _ => true
  | .fin _ m _ => m != 0

/-- The white space and line terminators that `parseFloat` skips at the start of its input. -/
def isStrWhiteSpaceChar (c : Char) : Bool :=
  c.toNat ∈ [0x9, 0xA, 0xB, 0xC, 0xD, 0x20, 0xA0, 0x1680, 0x2028, 0x2029, 0x202F, 0x205F,
    0x3000, 0xFEFF] || (0x2000 ≤ c.toNat && c.toNat ≤ 0x200A)

/-- A decimal digit, `0` to `9`. -/
def isDecimalDigit (c : Char) : Bool := '0' ≤ c && c ≤ '9'

/-- The natural number that a run of decimal digits denotes. -/
def digitsValue (ds : List Char) : Nat := ds.foldl (fun acc c => 10 * acc + (c.toNat - 48)) 0

/-- The `ExponentPart` that the text starts with, if any: its sign and its value. -/
def exponentPart : List Char → Option (Bool × Nat)
  | c :: rest =>
    if c = 'e' ∨ c = 'E' then
      match rest with
      | '+' :: ds => if (ds.takeWhile isDecimalDigit).isEmpty then none
                     else some (false, digitsValue (ds.takeWhile isDecimalDigit))
      | '-' :: ds => if (ds.takeWhile isDecimalDigit).isEmpty then none
                     else some (true, digitsValue (ds.takeWhile isDecimalDigit))
      | ds => if (ds.takeWhile isDecimalDigit).isEmpty then none
              else some (false, digitsValue (ds.takeWhile isDecimalDigit))
    else none
  | [] => none

/-- The value of the longest start of the text that is a `StrUnsignedDecimalLiteral`
(`Infinity`, or digits with an optional fraction and an optional exponent), with the sign
`neg` applied; `NaN` when the text starts with none. -/
def strUnsignedDecimalLiteral (neg : Bool) (cs : List Char) : JSNumber :=
  if "Infinity".toList.isPrefixOf cs then .inf neg else
  let intDigits := cs.takeWhile isDecimalDigit
  let rest := cs.dropWhile isDecimalDigit
  let fracDigits := match rest with
    | '.' :: r => r.takeWhile isDecimalDigit
    | _ => []
  let rest2 := match rest with
    | '.' :: r => r.dropWhile isDecimalDigit
    | _ => rest
  if intDigits.isEmpty && fracDigits.isEmpty then .nan else
  let mant := digitsValue (intDigits ++ fracDigits)
  match exponentPart rest2 with
  | some (false, x) => roundDouble neg (mant * 10 ^ x) (10 ^ fracDigits.length)
  | some (true, x) => roundDouble neg mant (10 ^ (fracDigits.length + x))
  | none => roundDouble neg mant (10 ^ fracDigits.length)

/-- The global function `parseFloat`: skip leading white space, read the longest start that
is a `StrDecimalLiteral`, and round its value to a Number. -/
def parseFloat (string : String) : JSNumber :=
  match string.toList.dropWhile isStrWhiteSpaceChar with
  | '+' :: cs => strUnsignedDecimalLiteral false cs
  | '-' :: cs => strUnsignedDecimalLiteral true cs
  | cs => strUnsignedDecimalLiteral false cs

/-- The number of times `p` has to be multiplied by ten to reach `q` (at most `fuel`). -/
def scaleUpCount : Nat → Nat → Nat → Nat
  | 0, _, _ => 0
  | fuel + 1, p, q => if q ≤ p then 0 else scaleUpCount fuel (10 * p) q + 1

/-- The decimal exponent of `p / q`, for `p, q > 0`: the `d` with `10^(d-1) ≤ p / q < 10^d`. -/
def decimalExponent (p q : Nat) : Int :=
  if q ≤ p then ((Nat.toDigits 10 (p / q)).length : Int)
  else 1 - (scaleUpCount 400 p q : Int)

/-- The numerator of `s * 10^t` written as a fraction. -/
def scaledNum (s : Nat) (t : Int) : Nat := if 0 ≤ t then s * 10 ^ t.toNat else s

/-- The denominator of `s * 10^t` written as a fraction. -/
def scaledDen (t : Int) : Nat := if 0 ≤ t then 1 else 10 ^ (-t).toNat

/-- The distance between `s * 10^t` and `p / q`, times `q * scaledDen t`. -/
def distNum (s : Nat) (t : Int) (p q : Nat) : Nat :=
  (scaledNum s t * q - p * scaledDen t) + (p * scaledDen t - scaledNum s t * q)

/-- The integers `n`, `k`, `s` of `Number::toString`: `s` has `k` digits and `s * 10^(n-k)`
rounds to the Number. -/
structure Shortest where
  n : Int
  k : Nat
  s : Nat
  deriving Repr, DecidableEq

/-- The pairs `(s, n)` with `s` of `k` digits for which `s * 10^(n-k)` rounds to the finite
positive Number `m * 2^e / 2^1074`, among the two `k`-digit decimals that enclose it and
the power of ten above it. -/
def candidates (m e : Nat) (k : Nat) : List (Nat × Int) :=
  let p := m * 2 ^ e
  let q := 2 ^ 1074
  let d := decimalExponent p q
  let t := d - (k : Int)
  let lo := (p * scaledDen t) / (q * scaledNum 1 t)
  ([(lo, d), (lo + 1, d)] ++ (if k = 1 then [(1, d + 1)] else [])).filter fun c =>
    10 ^ (k - 1) ≤ c.1 && c.1 < 10 ^ k &&
      decide (roundDouble false (scaledNum c.1 (c.2 - k)) (scaledDen (c.2 - k))
        = JSNumber.fin false m e)

/-- Of two candidates the one nearer to the Number; on a tie the one with `s` even. -/
def closer (m e k : Nat) (a b : Nat × Int) : Nat × Int :=
  let p := m * 2 ^ e
  let q := 2 ^ 1074
  let da := distNum a.1 (a.2 - k) p q * scaledDen (b.2 - k)
  let db := distNum b.1 (b.2 - k) p q * scaledDen (a.2 - k)
  if da < db then a else if db < da then b else if a.1 % 2 = 0 then a else b

/-- The search for the least `k` that has a candidate, from `k` on, at most `fuel` steps. -/
def shortestAux (m e : Nat) : Nat → Nat → Shortest
  | 0, k => ⟨0, k, 0⟩
  | fuel + 1, k =>
    match candidates m e k with
    | [] => shortestAux m e fuel (k + 1)
    | c :: cs => ⟨(cs.foldl (closer m e k) c).2, k, (cs.foldl (closer m e k) c).1⟩

/-- The shortest decimal that rounds to the finite positive Number `m * 2^e / 2^1074`
(seventeen digits always suffice). -/
def shortest (m e : Nat) : Shortest := shortestAux m e 17 1

/-- A run of `n` zeros. -/
def zeros (n : Nat) : List Char := List.replicate n '0'

/-- The text of `Number::toString` (radix ten) for the finite positive Number
`m * 2^e / 2^1074`: plain digits when `-5 ≤ n ≤ 21`, and else the exponential form. -/
def numberToStringPos (m e : Nat) : String :=
  let r := shortest m e
  let ds := Nat.toDigits 10 r.s
  let k := r.k
  let n := r.n
  if -5 ≤ n ∧ n ≤ 21 then
    if (k : Int) ≤ n then String.mk (ds ++ zeros (n.toNat - k))
    else if 0 < n then String.mk (ds.take n.toNat ++ '.' :: ds.drop n.toNat)
    else String.mk ('0' :: '.' :: zeros (-n).toNat ++ ds)
  else
    let ex := n - 1
    let sign := if ex < 0 then '-' else '+'
    let exDigits := Nat.toDigits 10 ex.natAbs
    if k = 1 then String.mk (ds ++ 'e' :: sign :: exDigits)
    else String.mk (ds.take 1 ++ '.' :: ds.drop 1 ++ 'e' :: sign :: exDigits)

/-- The conversion of a Number to a String (`Number::toString`, radix ten). -/
def numberToString : JSNumber → String
  | .nan => "NaN"
  | .inf neg => if neg then "-Infinity" else "Infinity"
  | .fin neg m e =>
    if m = 0 then "0" else if neg then "-" ++ numberToStringPos m e else numberToStringPos m e

/-- The integer nearest to `p / q`, the larger of the two when `p / q` lies half way. -/
def roundHalfUp (p q : Nat) : Nat := (2 * p + q) / (2 * q)

/-- The digits of `n`, padded on the left with zeros to `f + 1` digits at least, with a point
before the last `f` digits (for `f > 0`). -/
def fixedDigits (n f : Nat) : List Char :=
  let padded := zeros (f + 1 - (Nat.toDigits 10 n).length) ++ Nat.toDigits 10 n
  padded.take (padded.length - f) ++ '.' :: padded.drop (padded.length - f)

/-- The method `Number.prototype.toFixed`: a Number that is not finite goes through
`Number::toString`; so does the absolute value of one that is `≥ 10^21`; any other is rounded
to the nearest multiple of `10^-fractionDigits` (the larger of the two on a tie) and written
with exactly `fractionDigits` digits after the point. -/
def JSNumber.toFixed (x : JSNumber) (fractionDigits : Nat) : String :=
  match x with
  | .fin neg m e =>
    let s := if neg ∧ m ≠ 0 then "-" else ""
    if 10 ^ 21 * 2 ^ 1074 ≤ m * 2 ^ e then s ++ numberToStringPos m e
    else
      let n := roundHalfUp (m * 2 ^ e * 10 ^ fractionDigits) (2 ^ 1074)
      if fractionDigits = 0 then s ++ String.mk (Nat.toDigits 10 n)
      else s ++ String.mk (fixedDigits n fractionDigits)
  | x => numberToString x

/-! ## The state of the component -/

/-- The codes of the list `currencies` (lines 15 to 26): the only values that the two
`select` elements offer, hence the only values of `fromCurrency` and `toCurrency`. -/
inductive Currency
  | USD | EUR | GBP | JPY | AUD | CAD | CHF | CNY | INR | KRW
  deriving DecidableEq, Repr

/-- The three letters of a code, as the string held in the state. -/
def Currency.code : Currency → String
  | .USD => "USD" | .EUR => "EUR" | .GBP => "GBP" | .JPY => "JPY" | .AUD => "AUD"
  | .CAD => "CAD" | .CHF => "CHF" | .CNY => "CNY" | .INR => "INR" | .KRW => "KRW"

/-- An entry of the list `currencies`. -/
structure CurrencyEntry where
  code : Currency
  name : String
  flag : String
  deriving DecidableEq, Repr

/-- The constant `currencies` (lines 15 to 26). -/
def currencies : List CurrencyEntry :=
  [⟨.USD, "US Dollar", "🇺🇸"⟩, ⟨.EUR, "Euro", "🇪🇺"⟩, ⟨.GBP, "British Pound", "🇬🇧"⟩,
   ⟨.JPY, "Japanese Yen", "🇯🇵"⟩, ⟨.AUD, "Australian Dollar", "🇦🇺"⟩,
   ⟨.CAD, "Canadian Dollar", "🇨🇦"⟩, ⟨.CHF, "Swiss Franc", "🇨🇭"⟩,
   ⟨.CNY, "Chinese Yuan", "🇨🇳"⟩, ⟨.INR, "Indian Rupee", "🇮🇳"⟩,
   ⟨.KRW, "South Korean Won", "🇰🇷"⟩]

/-- The values that `convertedAmount` holds: the Number `0` it starts with, then the
strings that `toFixed` returns. -/
inductive JSValue
  | num (x : JSNumber)
  | str (s : String)
  deriving DecidableEq, Repr

/-- The text that a value stands for as a child of an element. -/
def JSValue.text : JSValue → String
  | .num x => numberToString x
  | .str s => s

/-- The seven `useState` cells (lines 6 to 12). -/
structure State where
  amount : String
  fromCurrency : Currency
  toCurrency : Currency
  exchangeRate : JSNumber
  convertedAmount : JSValue
  loading : Bool
  error : String
  deriving DecidableEq, Repr

/-- The Number `+0`. -/
def JSNumber.zero : JSNumber := .fin false 0 0

/-- The Number `1`, that is `2^52 * 2^1022 / 2^1074`. -/
def JSNumber.one : JSNumber := .fin false (2 ^ 52) 1022

/-- The initial values of the cells (lines 6 to 12). -/
def initialState : State :=
  { amount := "100", fromCurrency := .USD, toCurrency := .EUR, exchangeRate := .zero,
    convertedAmount := .num .zero, loading := false, error := "" }

/-- A call of one of the seven setters. -/
inductive Update
  | setAmount (value : String)
  | setFromCurrency (code : Currency)
  | setToCurrency (code : Currency)
  | setExchangeRate (rate : JSNumber)
  | setConvertedAmount (result : JSValue)
  | setLoading (flag : Bool)
  | setError (message : String)
  deriving DecidableEq, Repr

/-- The state after one setter call. -/
def State.apply (s : State) : Update → State
  | .setAmount v => { s with amount := v }
  | .setFromCurrency c => { s with fromCurrency := c }
  | .setToCurrency c => { s with toCurrency := c }
  | .setExchangeRate r => { s with exchangeRate := r }
  | .setConvertedAmount r => { s with convertedAmount := r }
  | .setLoading b => { s with loading := b }
  | .setError e => { s with error := e }

/-- The state after a sequence of setter calls, in order. -/
def State.applyAll (s : State) (us : List Update) : State := us.foldl State.apply s

/-! ## The rate fetcher (lines 29 to 62) -/

/-- What the network gives back for the one request of `fetchExchangeRate`.
`rejected`: the promise of `fetch` rejects.  `response ok rates`: it resolves to a response
with `response.ok = ok`; `rates = none` when reading `data.rates[toCurrency]` throws or can
find nothing (the body is not JSON, or `data` or `data.rates` is not an object), and else
`rates` lists the properties of the object `data.rates`, whose values are Numbers. -/
inductive FetchOutcome
  | rejected
  | response (ok : Bool) (rates : Option (List (String × JSNumber)))
  deriving DecidableEq, Repr

/-- The message of line 57. -/
def fetchErrorMessage : String := "Unable to fetch exchange rates. Please try again."

/-- The address of the request (lines 40 to 42). -/
def requestUrl (fromCurrency : Currency) : String :=
  "https://api.exchangerate-api.com/v4/latest/" ++ fromCurrency.code

/-- The `try` block (lines 38 to 55): `some rate` when it reaches `setExchangeRate(rate)`,
`none` when it throws (rejected promise, `!response.ok`, unreadable body, or `rate` falsy:
`undefined` for a missing key, or `0`). -/
def tryBlock (toCurrency : Currency) : FetchOutcome → Option JSNumber
  | .rejected => none
  | .response false _ => none
  | .response true none => none
  | .response true (some rates) =>
    match rates.lookup toCurrency.code with
    | some rate => if rate.truthy then some rate else none
    | none => none

/-- The setter calls of `fetchExchangeRate` after its `await`: the end of the `try` block or
the `catch` block, then the `finally` block. -/
def fetchResumed (toCurrency : Currency) (outcome : FetchOutcome) : List Update :=
  match tryBlock toCurrency outcome with
  | some rate => [.setExchangeRate rate, .setLoading false]
  | none => [.setError fetchErrorMessage, .setLoading false]

/-- One run of `fetchExchangeRate`: the addresses it requests, its setter calls before it
suspends at the `await`, and its setter calls once the awaited promises have settled. -/
structure FetchRun where
  requests : List String
  sync : List Update
  resumed : List Update
  deriving DecidableEq, Repr

/-- The function `fetchExchangeRate` (lines 29 to 62), in a render whose state is `s`. -/
def fetchExchangeRate (s : State) (outcome : FetchOutcome) : FetchRun :=
  if s.fromCurrency = s.toCurrency then
    { requests := [], sync := [.setExchangeRate .one], resumed := [] }
  else
    { requests := [requestUrl s.fromCurrency],
      sync := [.setLoading true, .setError ""],
      resumed := fetchResumed s.toCurrency outcome }

/-- The state while the request of a run is pending. -/
def FetchRun.pending (r : FetchRun) (s : State) : State := s.applyAll r.sync

/-- The state once a run is over, when nothing else happens in between. -/
def FetchRun.final (r : FetchRun) (s : State) : State := (s.applyAll r.sync).applyAll r.resumed

/-! ## Handlers and the derived amount -/

/-- The body of the effect of lines 65 to 70, in a render whose state is `s`. -/
def convertEffect (s : State) : List Update :=
  if s.exchangeRate.truthy && s.amount != "" then
    [.setConvertedAmount (.str (((parseFloat s.amount).mul s.exchangeRate).toFixed 2))]
  else []

/-- The handler `swapCurrencies` (lines 78 to 81), in a render whose state is `s`. -/
def swapCurrencies (s : State) : State :=
  s.applyAll [.setFromCurrency s.toCurrency, .setToCurrency s.fromCurrency]

/-- The handler `handleAmountChange` (lines 84 to 90) on an event with `e.target.value = value`. -/
def handleAmountChange (s : State) (value : String) : State :=
  if amountAccepted value then s.apply (.setAmount value) else s

/-- The labels of the quick-convert buttons (line 202). -/
def quickAmounts : List String := ["1", "10", "100", "500", "1000", "5000"]

/-! ## The rendered view (lines 92 to 220) -/

/-- The content of the result panel (lines 171 to 181). -/
inductive ResultPanel
  | spinner
  | errorText (message : String)
  | converted (text : String)
  deriving DecidableEq, Repr

/-- What the expression of lines 186 to 195 renders: nothing when it evaluates to `false`,
the Number itself when it evaluates to a falsy `exchangeRate`, and else the rate line. -/
inductive RateInfo
  | nothing
  | number (text : String)
  | line (text : String)
  deriving DecidableEq, Repr

/-- The parts of the rendered tree that depend on the state. -/
structure View where
  amountValue : String
  fromValue : Currency
  toValue : Currency
  swapDisabled : Bool
  result : ResultPanel
  rateInfo : RateInfo
  deriving DecidableEq, Repr

/-- The result panel: `loading ? spinner : error ? error : convertedAmount toCurrency`. -/
def resultPanel (s : State) : ResultPanel :=
  if s.loading then .spinner
  else if s.error != "" then .errorText s.error
  else .converted (s.convertedAmount.text ++ " " ++ s.toCurrency.code)

/-- The rate line: `!loading && !error && exchangeRate && (...)`. -/
def rateInfo (s : State) : RateInfo :=
  if s.loading then .nothing
  else if s.error != "" then .nothing
  else if !s.exchangeRate.truthy then .number (numberToString s.exchangeRate)
  else .line ("1 " ++ s.fromCurrency.code ++ " = " ++ s.exchangeRate.toFixed 4 ++ " "
    ++ s.toCurrency.code)

/-- The render of the component in state `s`. -/
def render (s : State) : View :=
  { amountValue := s.amount, fromValue := s.fromCurrency, toValue := s.toCurrency,
    swapDisabled := s.loading, result := resultPanel s, rateInfo := rateInfo s }

/-! ## Renders and effects

After a render, an effect runs when the render is the first one or when one of the values of
its dependency array differs (by `Object.is`) from the previous render.  The setter calls of
the effects of one render are applied together and lead to one more render. -/

/-- The dependency array of the effect of lines 65 to 70. -/
def convertDeps (s : State) : String × JSNumber := (s.amount, s.exchangeRate)

/-- The dependency array of the effect of lines 73 to 75. -/
def fetchDeps (s : State) : Currency × Currency := (s.fromCurrency, s.toCurrency)

/-- Whether an effect with the dependencies `deps` runs after the render of `next`, the
previous render (if any) having been that of `prev`. -/
def depsChanged {α : Type} [DecidableEq α] (deps : State → α) (prev : Option State)
    (next : State) : Bool :=
  match prev with
  | none => true
  | some p => decide (deps p ≠ deps next)

/-- The result of rendering a state and running the effects until no effect is left to run:
the state at the end, the runs of the fetcher, and the states that were rendered on the way,
in order (a batch of setter calls that changes nothing causes no render). -/
structure Commit where
  state : State
  fetchRuns : List FetchRun
  renders : List State
  deriving DecidableEq, Repr

/-- Render `next` after `prev` and run the effects; `net` is what the network will answer
to a request made by this commit.  The effects run after the render of `next` is committed,
so that render still shows the cells as the handler left them.  The second render can only
re-run the effect of lines 65 to 70 (the fetcher does not touch the currencies), and a third
one runs nothing. -/
def commit (prev : Option State) (next : State) (net : FetchOutcome) : Commit :=
  let converted := if depsChanged convertDeps prev next then convertEffect next else []
  let runs := if depsChanged fetchDeps prev next then [fetchExchangeRate next net] else []
  let second := next.applyAll (converted ++ runs.flatMap FetchRun.sync)
  let again := if depsChanged convertDeps (some next) second then convertEffect second else []
  { state := second.applyAll again, fetchRuns := runs,
    renders := (if prev = some next then [] else [next]) ++
      (if second = next then [] else [second]) ++
      (if second.applyAll again = second then [] else [second.applyAll again]) }

/-- The component and the continuations of the fetches that are still awaiting an answer. -/
structure World where
  ui : State
  pending : List (List Update)
  deriving DecidableEq, Repr

/-- What can happen to a mounted component. -/
inductive Event
  | amountChange (value : String)
  | selectFrom (code : Currency)
  | selectTo (code : Currency)
  | swapClick
  | quickConvert (index : Fin 6)
  | settle (index : Nat)
  deriving DecidableEq, Repr

/-- The continuations that the fetches of a commit leave pending. -/
def newPending (runs : List FetchRun) : List (List Update) :=
  (runs.filter fun r => !r.requests.isEmpty).map FetchRun.resumed

/-- The world after committing `next`. -/
def World.commit (w : World) (next : State) (net : FetchOutcome) : World :=
  { ui := (CurrencyConverter.commit (some w.ui) next net).state,
    pending := w.pending ++ newPending (CurrencyConverter.commit (some w.ui) next net).fetchRuns }

/-- The mount of the component: the first render and its effects. -/
def mount (net : FetchOutcome) : World :=
  { ui := (commit none initialState net).state,
    pending := newPending (commit none initialState net).fetchRuns }

/-- One event: the handler (or the continuation of a fetch) runs, then the commit.  The swap
button is disabled while `loading`, and the answers to pending requests arrive in any order. -/
def step (w : World) (ev : Event) (net : FetchOutcome) : World :=
  match ev with
  | .amountChange value => w.commit (handleAmountChange w.ui value) net
  | .selectFrom code => w.commit (w.ui.apply (.setFromCurrency code)) net
  | .selectTo code => w.commit (w.ui.apply (.setToCurrency code)) net
  | .swapClick => if w.ui.loading then w else w.commit (swapCurrencies w.ui) net
  | .quickConvert index => w.commit (w.ui.apply (.setAmount (quickAmounts.getD index ""))) net
  | .settle index =>
    match w.pending.get? index with
    | none => w
    | some updates =>
      { w with pending := w.pending.eraseIdx index }.commit (w.ui.applyAll updates) net

/-- The world after a sequence of events, each with the answer of the network to the request
it may cause, from the mount on. -/
def run (first : FetchOutcome) (events : List (Event × FetchOutcome)) : World :=
  events.foldl (fun w ev => step w ev.1 ev.2) (mount first)

/-! ## The properties of the specification -/

/-- The language of the amount filter in the words of the specification: an optional run of
digits, then at most one point, then an optional run of digits, and nothing else. -/
def DigitsPointDigits (cs : List Char) : Prop :=
  ∃ ds1 ds2 : List Char, (∀ c ∈ ds1, isDecimalDigit c = true) ∧
    (∀ c ∈ ds2, isDecimalDigit c = true) ∧ (cs = ds1 ++ ds2 ∨ cs = ds1 ++ '.' :: ds2)

/-- A numeral in the words of the specification: at least one digit, made of digits with an
optional single point that has digits before it, after it, or both. -/
def IsNumeral (cs : List Char) : Prop :=
  (∃ c ∈ cs, isDecimalDigit c = true) ∧ DigitsPointDigits cs

/-- The relation between the cells that the effect of lines 65 to 70 maintains: when the rate
is truthy and the amount is not empty, the converted amount is the text that `toFixed(2)`
gives for the product of the parsed amount and the rate. -/
def Derived (s : State) : Prop :=
  s.exchangeRate.truthy = true → s.amount ≠ "" →
    s.convertedAmount = .str (((parseFloat s.amount).mul s.exchangeRate).toFixed 2)

/-- The worlds in which the derived amount is up to date and every pending continuation is
one of `fetchExchangeRate`. -/
def World.Consistent (w : World) : Prop :=
  Derived w.ui ∧ ∀ us ∈ w.pending, ∃ target outcome, us = fetchResumed target outcome

/-- The answer `{rates: {GBP: 0.79}}` with a success status. -/
def gbpResponse : FetchOutcome := .response true (some [("GBP", parseFloat "0.79")])

/-- The answer `{rates: {EUR: 0.92}}` with a success status. -/
def eurResponse : FetchOutcome := .response true (some [("EUR", parseFloat "0.92")])

/-- The exact value of the finite Number with mantissa `m` and exponent `e`, sign apart. -/
def magnitude (m e : Nat) : ℚ := ((m * 2 ^ e : Nat) : ℚ) / ((2 ^ 1074 : Nat) : ℚ)

/-- The text is a decimal numeral with at least one digit before the point and exactly `f`
digits after it, and its digits read as the natural number `n`: it denotes `n / 10^f`. -/
def IsFixedText (text : String) (f n : Nat) : Prop :=
  ∃ a b : List Char, text = String.mk (a ++ '.' :: b) ∧ a ≠ [] ∧ b.length = f ∧
    (∀ c ∈ a ++ b, isDecimalDigit c = true) ∧ digitsValue (a ++ b) = n

/-- The digits of an amount text read as one natural number, the point left out. -/
def decimalNumerator (A : String) : Nat := digitsValue (A.toList.filter isDecimalDigit)

/-- The number of characters of an amount text after its first point (`0` without a point).
The text denotes the decimal `decimalNumerator A / 10 ^ decimalPlaces A`. -/
def decimalPlaces (A : String) : Nat := (A.toList.dropWhile fun c => c != '.').length - 1

/-! ## The amount filter -/

theorem isDecimalDigit_iff (c : Char) :
    isDecimalDigit c = true ↔
      c = '0' ∨ c = '1' ∨ c = '2' ∨ c = '3' ∨ c = '4' ∨ c = '5' ∨ c = '6' ∨ c = '7' ∨ c = '8'
        ∨ c = '9' := by
  constructor
  · intro h
    simp only [isDecimalDigit, Bool.and_eq_true, decide_eq_true_eq] at h
    obtain ⟨h1, h2⟩ := h
    have h1' : 48 ≤ c.toNat := h1
    have h2' : c.toNat ≤ 57 := h2
    have hc : c = Char.ofNat c.toNat := (Char.ofNat_toNat c).symm
    generalize c.toNat = n at h1' h2' hc
    interval_cases n <;> simp [hc]
  · rintro (h | h | h | h | h | h | h | h | h | h) <;> subst h <;> decide

theorem digitClass_rmatch_iff (x : List Char) :
    digitClass.rmatch x = true ↔ ∃ c, isDecimalDigit c = true ∧ x = [c] := by
  simp only [digitClass, RegularExpression.add_rmatch_iff, RegularExpression.char_rmatch_iff,
    isDecimalDigit_iff]
  constructor
  · rintro (((((((((h | h) | h) | h) | h) | h) | h) | h) | h) | h) <;> exact ⟨_, by simp, h⟩
  · rintro ⟨c, (h | h | h | h | h | h | h | h | h | h), rfl⟩ <;> subst h <;> simp

theorem digitStar_rmatch_iff (x : List Char) :
    digitClass.star.rmatch x = true ↔ ∀ c ∈ x, isDecimalDigit c = true := by
  rw [RegularExpression.star_rmatch_iff]
  constructor
  · rintro ⟨S, rfl, hS⟩ c hc
    obtain ⟨t, ht, hct⟩ := List.mem_flatten.1 hc
    obtain ⟨d, hd, rfl⟩ := (digitClass_rmatch_iff t).1 (hS t ht).2
    rw [List.mem_singleton.1 hct]
    exact hd
  · intro h
    refine ⟨x.map fun c => [c], ?_, ?_⟩
    · induction x with
      | nil => rfl
      | cons a l ih =>
        simp only [List.map_cons, List.flatten_cons, List.singleton_append, List.cons.injEq,
          true_and]
        exact ih fun c hc => h c (List.mem_cons_of_mem _ hc)
    · intro t ht
      obtain ⟨c, hc, rfl⟩ := List.mem_map.1 ht
      exact ⟨by simp, (digitClass_rmatch_iff _).2 ⟨c, h c hc, rfl⟩⟩

theorem amountPattern_rmatch_iff (x : List Char) :
    amountPattern.rmatch x = true ↔ DigitsPointDigits x := by
  simp only [amountPattern, optional, RegularExpression.mul_rmatch_iff,
    RegularExpression.add_rmatch_iff, RegularExpression.char_rmatch_iff,
    RegularExpression.one_rmatch_iff, digitStar_rmatch_iff, DigitsPointDigits]
  constructor
  · rintro ⟨t, u, rfl, ⟨a, b, rfl, ha, hb | hb⟩, hu⟩
    · subst hb
      exact ⟨a, u, ha, hu, Or.inr (by simp)⟩
    · subst hb
      exact ⟨a, u, ha, hu, Or.inl (by simp)⟩
  · rintro ⟨a, b, ha, hb, h | h⟩
    · exact ⟨a, b, by simpa using h, ⟨a, [], by simp, ha, Or.inr rfl⟩, hb⟩
    · exact ⟨a ++ ['.'], b, by simpa using h, ⟨a, ['.'], rfl, ha, Or.inl rfl⟩, hb⟩

theorem amountAccepted_iff (v : String) :
    amountAccepted v = true ↔ DigitsPointDigits v.toList := by
  unfold amountAccepted regexTest
  rw [Bool.or_eq_true, amountPattern_rmatch_iff]
  constructor
  · rintro (h | h)
    · have : v = "" := by simpa using h
      subst this
      exact ⟨[], [], by simp, by simp, Or.inl rfl⟩
    · exact h
  · exact Or.inr

theorem digit_ne_point (c : Char) (h : isDecimalDigit c = true) : c ≠ '.' := by
  rintro rfl
  exact absurd h (by decide)

theorem count_point_of_digits (ds : List Char) (h : ∀ c ∈ ds, isDecimalDigit c = true) :
    ds.count '.' = 0 :=
  List.count_eq_zero.2 fun hm => digit_ne_point _ (h _ hm) rfl

theorem digitsPointDigits_iff_count (cs : List Char) :
    DigitsPointDigits cs ↔
      (∀ c ∈ cs, isDecimalDigit c = true ∨ c = '.') ∧ cs.count '.' ≤ 1 := by
  constructor
  · rintro ⟨a, b, ha, hb, rfl | rfl⟩
    · refine ⟨fun c hc => ?_, ?_⟩
      · rcases List.mem_append.1 hc with h | h
        · exact Or.inl (ha c h)
        · exact Or.inl (hb c h)
      · simp [count_point_of_digits a ha, count_point_of_digits b hb]
    · refine ⟨fun c hc => ?_, ?_⟩
      · rcases List.mem_append.1 hc with h | h
        · exact Or.inl (ha c h)
        · rcases List.mem_cons.1 h with h | h
          · exact Or.inr h
          · exact Or.inl (hb c h)
      · simp [count_point_of_digits a ha, count_point_of_digits b hb]
  · rintro ⟨hall, hcount⟩
    by_cases hmem : '.' ∈ cs
    · obtain ⟨a, b, rfl⟩ := List.append_of_mem hmem
      have hc : a.count '.' + (b.count '.' + 1) ≤ 1 := by
        simpa [List.count_append, List.count_cons_self] using hcount
      have ha0 : a.count '.' = 0 := by omega
      have hb0 : b.count '.' = 0 := by omega
      refine ⟨a, b, fun c hc => ?_, fun c hc => ?_, Or.inr rfl⟩
      · rcases hall c (List.mem_append_left _ hc) with h | h
        · exact h
        · exact absurd (h ▸ hc) (List.count_eq_zero.1 ha0)
      · rcases hall c (List.mem_append_right _ (List.mem_cons_of_mem _ hc)) with h | h
        · exact h
        · exact absurd (h ▸ hc) (List.count_eq_zero.1 hb0)
    · refine ⟨cs, [], fun c hc => ?_, by simp, Or.inl (by simp)⟩
      rcases hall c hc with h | h
      · exact h
      · exact absurd (h ▸ hc) hmem

/-! ## The derived amount is maintained by every commit -/

theorem Derived.congr {s t : State} (h : Derived s) (ha : t.amount = s.amount)
    (hr : t.exchangeRate = s.exchangeRate) (hc : t.convertedAmount = s.convertedAmount) :
    Derived t := by
  unfold Derived at *
  rw [ha, hr, hc]
  exact h

theorem applyAll_append (s : State) (us vs : List Update) :
    s.applyAll (us ++ vs) = (s.applyAll us).applyAll vs := by
  simp [State.applyAll, List.foldl_append]

theorem convertEffect_amount (s : State) : (s.applyAll (convertEffect s)).amount = s.amount := by
  unfold convertEffect
  split <;> rfl

theorem convertEffect_exchangeRate (s : State) :
    (s.applyAll (convertEffect s)).exchangeRate = s.exchangeRate := by
  unfold convertEffect
  split <;> rfl

theorem convertEffect_derived (s : State) : Derived (s.applyAll (convertEffect s)) := by
  intro ht ha
  rw [convertEffect_amount] at ha ⊢
  rw [convertEffect_exchangeRate] at ht ⊢
  have hg : (s.exchangeRate.truthy && s.amount != "") = true := by simp [ht, ha]
  simp [convertEffect, hg, State.applyAll, State.apply]

theorem sync_amount (s next : State) (net : FetchOutcome) :
    (s.applyAll (fetchExchangeRate next net).sync).amount = s.amount := by
  unfold fetchExchangeRate
  split <;> rfl

theorem sync_convertedAmount (s next : State) (net : FetchOutcome) :
    (s.applyAll (fetchExchangeRate next net).sync).convertedAmount = s.convertedAmount := by
  unfold fetchExchangeRate
  split <;> rfl

theorem commit_derived (prev : Option State) (next : State) (net : FetchOutcome)
    (h : ∀ p, prev = some p → Derived p ∧ next.convertedAmount = p.convertedAmount) :
    Derived (commit prev next net).state := by
  unfold commit
  simp only
  generalize hconv : (if depsChanged convertDeps prev next = true then convertEffect next
    else []) = converted
  generalize hruns : (if depsChanged fetchDeps prev next = true then
    [fetchExchangeRate next net] else []) = runs
  generalize hsecond : next.applyAll (converted ++ runs.flatMap FetchRun.sync) = second
  by_cases hd : depsChanged convertDeps (some next) second = true
  · rw [if_pos hd]
    exact convertEffect_derived second
  · rw [if_neg hd]
    have hdeps : convertDeps next = convertDeps second := by
      by_contra hne
      exact hd (by simp [depsChanged, hne])
    have ha : second.amount = next.amount := (congrArg Prod.fst hdeps).symm
    have hr : second.exchangeRate = next.exchangeRate := (congrArg Prod.snd hdeps).symm
    have hc : second.convertedAmount = (next.applyAll converted).convertedAmount := by
      rw [← hsecond, applyAll_append, ← hruns]
      split
      · simpa using sync_convertedAmount _ next net
      · rfl
    show Derived (second.applyAll [])
    change Derived second
    by_cases hcd : depsChanged convertDeps prev next = true
    · rw [if_pos hcd] at hconv
      subst hconv
      exact (convertEffect_derived next).congr (ha.trans (convertEffect_amount next).symm)
        (hr.trans (convertEffect_exchangeRate next).symm) hc
    · rw [if_neg hcd] at hconv
      subst hconv
      cases prev with
      | none => exact absurd rfl hcd
      | some p =>
        obtain ⟨hp, hpc⟩ := h p rfl
        have hdeps2 : convertDeps p = convertDeps next := by
          by_contra hne
          exact hcd (by simp [depsChanged, hne])
        exact hp.congr (ha.trans (congrArg Prod.fst hdeps2).symm)
          (hr.trans (congrArg Prod.snd hdeps2).symm) (hc.trans hpc)

theorem fetchResumed_convertedAmount (s : State) (target : Currency) (outcome : FetchOutcome) :
    (s.applyAll (fetchResumed target outcome)).convertedAmount = s.convertedAmount := by
  unfold fetchResumed
  split <;> rfl

theorem newPending_resumed (next : State) (net : FetchOutcome) (prev : Option State) :
    ∀ us ∈ newPending (commit prev next net).fetchRuns,
      ∃ target outcome, us = fetchResumed target outcome := by
  intro us hus
  simp only [newPending, commit, List.mem_map, List.mem_filter] at hus
  obtain ⟨r, ⟨hr, hreq⟩, rfl⟩ := hus
  split at hr
  · rw [List.mem_singleton] at hr
    subst hr
    unfold fetchExchangeRate at hreq ⊢
    split
    · rename_i heq
      simp [heq] at hreq
    · exact ⟨_, _, rfl⟩
  · simp at hr

theorem World.commit_consistent (w : World) (next : State) (net : FetchOutcome)
    (hw : w.Consistent) (hc : next.convertedAmount = w.ui.convertedAmount) :
    (w.commit next net).Consistent := by
  refine ⟨commit_derived _ _ _ ?_, ?_⟩
  · intro p hp
    cases hp
    exact ⟨hw.1, hc⟩
  · intro us hus
    rcases List.mem_append.1 hus with h | h
    · exact hw.2 us h
    · exact newPending_resumed _ _ _ us h

theorem mount_consistent (net : FetchOutcome) : (mount net).Consistent :=
  ⟨commit_derived _ _ _ (fun _ hp => by cases hp), newPending_resumed _ _ _⟩

theorem step_consistent (w : World) (ev : Event) (net : FetchOutcome) (hw : w.Consistent) :
    (step w ev net).Consistent := by
  cases ev with
  | amountChange value =>
    refine World.commit_consistent w _ net hw ?_
    unfold handleAmountChange
    split <;> rfl
  | selectFrom code => exact World.commit_consistent w _ net hw rfl
  | selectTo code => exact World.commit_consistent w _ net hw rfl
  | swapClick =>
    unfold step
    simp only
    split
    · exact hw
    · exact World.commit_consistent w _ net hw rfl
  | quickConvert index => exact World.commit_consistent w _ net hw rfl
  | settle index =>
    unfold step
    simp only
    split
    · exact hw
    · rename_i updates hget
      obtain ⟨target, outcome, rfl⟩ := hw.2 updates (List.get?_mem hget)
      refine World.commit_consistent { w with pending := w.pending.eraseIdx index } _ net
        ⟨hw.1, fun us hus => hw.2 us (List.mem_of_mem_eraseIdx hus)⟩ ?_
      exact fetchResumed_convertedAmount _ _ _

theorem run_consistent (first : FetchOutcome) (events : List (Event × FetchOutcome)) :
    (run first events).Consistent := by
  unfold run
  have hw := mount_consistent first
  generalize mount first = w at hw
  induction events generalizing w with
  | nil => exact hw
  | cons ev evs ih => exact ih _ (step_consistent w ev.1 ev.2 hw)

/-! ## Decimal digits -/

theorem digitChar_decimal (d : Nat) (h : d < 10) :
    isDecimalDigit (Nat.digitChar d) = true ∧ (Nat.digitChar d).toNat - 48 = d := by
  interval_cases d <;> exact ⟨by decide, by decide⟩

theorem digitsValue_snoc (l : List Char) (c : Char) :
    digitsValue (l ++ [c]) = 10 * digitsValue l + (c.toNat - 48) := by
  simp [digitsValue, List.foldl_append]

/-- With more fuel than the number, `Nat.toDigitsCore` puts in front of its accumulator a
run of digits that reads back as the number. -/
theorem toDigitsCore_decimal (fuel n : Nat) (tail : List Char) (hn : n < fuel) :
    ∃ run, digitsValue run = n ∧ run ≠ [] ∧ (∀ c ∈ run, isDecimalDigit c = true) ∧
      Nat.toDigitsCore 10 fuel n tail = run ++ tail := by
  induction fuel generalizing n tail with
  | zero => omega
  | succ fuel ih =>
    obtain ⟨hdig, hval⟩ := digitChar_decimal (n % 10) (Nat.mod_lt _ (by norm_num))
    have hlast : digitsValue [Nat.digitChar (n % 10)] = n % 10 := by
      have := digitsValue_snoc [] (Nat.digitChar (n % 10))
      rw [List.nil_append] at this
      rw [this, hval]
      simp [digitsValue]
    unfold Nat.toDigitsCore
    by_cases h0 : n / 10 = 0
    · refine ⟨[Nat.digitChar (n % 10)], ?_, by simp, by simpa using hdig, by simp [h0]⟩
      rw [hlast]
      omega
    · obtain ⟨run, hv, -, hall, hrun⟩ := ih (n / 10) (Nat.digitChar (n % 10) :: tail) (by omega)
      refine ⟨run ++ [Nat.digitChar (n % 10)], ?_, by simp, ?_, by simp [h0, hrun]⟩
      · rw [digitsValue_snoc, hv, hval]
        omega
      · intro c hc
        rcases List.mem_append.1 hc with h | h
        · exact hall c h
        · rw [List.mem_singleton.1 h]
          exact hdig

theorem toDigits_decimal (n : Nat) :
    Nat.toDigits 10 n ≠ [] ∧ (∀ c ∈ Nat.toDigits 10 n, isDecimalDigit c = true) ∧
      digitsValue (Nat.toDigits 10 n) = n := by
  obtain ⟨run, hv, hne, hall, hrun⟩ := toDigitsCore_decimal (n + 1) n [] (by omega)
  have : Nat.toDigits 10 n = run := by simpa [Nat.toDigits] using hrun
  rw [this]
  exact ⟨hne, hall, hv⟩

/-! ## The rounding to a Number is a rounding to nearest -/

theorem bitLengthAux_bounds (fuel : Nat) :
    ∀ n, n ≤ fuel → n < 2 ^ bitLengthAux fuel n ∧
      (n ≠ 0 → 2 ^ (bitLengthAux fuel n - 1) ≤ n) := by
  induction fuel with
  | zero =>
    intro n hn
    have : n = 0 := by omega
    subst this
    exact ⟨by simp [bitLengthAux], fun h => absurd rfl h⟩
  | succ fuel ih =>
    intro n hn
    unfold bitLengthAux
    by_cases h0 : n = 0
    · subst h0
      exact ⟨by simp, fun h => absurd rfl h⟩
    · rw [if_neg h0]
      obtain ⟨hlt, hge⟩ := ih (n / 2) (by omega)
      refine ⟨?_, fun _ => ?_⟩
      · rw [pow_succ]
        omega
      · rw [Nat.add_sub_cancel]
        by_cases h2 : n / 2 = 0
        · have hb : bitLengthAux fuel (n / 2) = 0 := by
            rw [h2]
            cases fuel <;> simp [bitLengthAux]
          rw [hb]
          simp
          omega
        · have := hge h2
          have hb : bitLengthAux fuel (n / 2) ≠ 0 := by
            intro hb
            rw [hb] at hlt
            simp at hlt
            exact h2 hlt
          obtain ⟨b, hb'⟩ := Nat.exists_eq_succ_of_ne_zero hb
          rw [hb'] at this ⊢
          rw [Nat.succ_sub_one] at this
          rw [pow_succ]
          omega

theorem bitLength_bounds (n : Nat) :
    n < 2 ^ bitLength n ∧ (n ≠ 0 → 2 ^ (bitLength n - 1) ≤ n) :=
  bitLengthAux_bounds n n (Nat.le_refl n)

theorem roundHalfEven_bounds (a b : Nat) (hb : 0 < b) :
    2 * (roundHalfEven a b * b) ≤ 2 * a + b ∧ 2 * a ≤ 2 * (roundHalfEven a b * b) + b ∧
      a / b ≤ roundHalfEven a b ∧ roundHalfEven a b ≤ a / b + 1 ∧
      (a % b = 0 → roundHalfEven a b = a / b) := by
  have hdiv : b * (a / b) + a % b = a := Nat.div_add_mod a b
  have hmod : a % b < b := Nat.mod_lt _ hb
  have hc : a / b * b = b * (a / b) := Nat.mul_comm _ _
  have hs : (a / b + 1) * b = b * (a / b) + b := by rw [Nat.add_mul, hc, Nat.one_mul]
  unfold roundHalfEven
  split_ifs with h1 h2 h3
  · rw [hc]; refine ⟨by omega, by omega, le_refl _, by omega, fun _ => rfl⟩
  · rw [hs]; refine ⟨by omega, by omega, by omega, le_refl _, fun h => by omega⟩
  · rw [hc]; refine ⟨by omega, by omega, le_refl _, by omega, fun _ => rfl⟩
  · rw [hs]; refine ⟨by omega, by omega, by omega, le_refl _, fun h => by omega⟩

theorem roundDouble_spec (neg neg2 : Bool) (num den m e : Nat) (hden : 0 < den)
    (h : roundDouble neg num den = .fin neg2 m e) :
    neg2 = neg ∧ m < 2 ^ 53 ∧ e ≤ 2045 ∧ (m < 2 ^ 52 → e = 0) ∧
      2 * (m * 2 ^ e * den) ≤ 2 * (num * 2 ^ 1074) + den * 2 ^ e ∧
      2 * (num * 2 ^ 1074) ≤ 2 * (m * 2 ^ e * den) + den * 2 ^ e := by
  unfold roundDouble at h
  simp only at h
  generalize num * 2 ^ 1074 = scaled at h ⊢
  obtain ⟨hlt, hge⟩ := bitLength_bounds (scaled / den)
  generalize hbl : bitLength (scaled / den) = bl at h hlt hge
  have hD : 0 < den * 2 ^ (bl - 53) := Nat.mul_pos hden (by positivity)
  obtain ⟨r1, r2, r3, r4, -⟩ := roundHalfEven_bounds scaled (den * 2 ^ (bl - 53)) hD
  generalize hm0 : roundHalfEven scaled (den * 2 ^ (bl - 53)) = m0 at h r1 r2 r3 r4
  -- the quotient lies below `2^53`
  have hs1 : scaled < 2 ^ bl * den := (Nat.div_lt_iff_lt_mul hden).1 hlt
  have hpow : 2 ^ bl ≤ 2 ^ (bl - 53) * 2 ^ 53 := by
    rw [← pow_add]
    exact Nat.pow_le_pow_right (by norm_num) (by omega)
  have hs2 : scaled < 2 ^ 53 * (den * 2 ^ (bl - 53)) := by
    calc scaled < 2 ^ bl * den := hs1
      _ ≤ 2 ^ (bl - 53) * 2 ^ 53 * den := Nat.mul_le_mul_right _ hpow
      _ = 2 ^ 53 * (den * 2 ^ (bl - 53)) := by ring
  have hq : scaled / (den * 2 ^ (bl - 53)) < 2 ^ 53 := (Nat.div_lt_iff_lt_mul hD).2 hs2
  have hm53 : m0 ≤ 2 ^ 53 := by omega
  -- above the subnormal range the quotient reaches `2^52`
  have hlow : bl - 53 ≠ 0 → 2 ^ 52 ≤ m0 := by
    intro he
    have hn0 : scaled / den ≠ 0 := by
      intro h0
      rw [h0] at hbl
      have : bl = 0 := by rw [← hbl]; rfl
      omega
    have h1 : 2 ^ (bl - 1) * den ≤ scaled := (Nat.le_div_iff_mul_le hden).1 (hge hn0)
    have hp : 2 ^ (bl - 1) = 2 ^ 52 * 2 ^ (bl - 53) := by
      rw [← pow_add]
      congr 1
      omega
    have h2 : 2 ^ 52 * (den * 2 ^ (bl - 53)) ≤ scaled := by
      calc 2 ^ 52 * (den * 2 ^ (bl - 53)) = 2 ^ (bl - 1) * den := by rw [hp]; ring
        _ ≤ scaled := h1
    have h3 : 2 ^ 52 ≤ scaled / (den * 2 ^ (bl - 53)) := (Nat.le_div_iff_mul_le hD).2 h2
    omega
  by_cases h53 : m0 = 2 ^ 53
  · rw [if_pos h53, if_pos h53] at h
    split at h
    · exact absurd h (by simp)
    · rename_i hle
      injection h with hn hm he
      subst hn hm he
      have hA : 2 ^ 52 * 2 ^ (bl - 53 + 1) * den = 2 ^ 53 * (den * 2 ^ (bl - 53)) := by
        rw [pow_succ]; ring
      have hB : den * 2 ^ (bl - 53 + 1) = 2 * (den * 2 ^ (bl - 53)) := by
        rw [pow_succ]; ring
      rw [h53] at r1 r2
      refine ⟨rfl, by norm_num, by omega, fun hc => absurd hc (by norm_num), ?_, ?_⟩
      · rw [hA, hB]
        omega
      · rw [hA, hB]
        omega
  · rw [if_neg h53, if_neg h53] at h
    split at h
    · exact absurd h (by simp)
    · rename_i hle
      injection h with hn hm he
      subst hn hm he
      have hassoc : m0 * 2 ^ (bl - 53) * den = m0 * (den * 2 ^ (bl - 53)) := by ring
      refine ⟨rfl, by omega, by omega, fun hc => ?_, by rw [hassoc]; omega,
        by rw [hassoc]; omega⟩
      by_contra hne
      have := hlow hne
      omega

/-! ## The text of `toFixed` -/

theorem digitsValue_zeros_append (k : Nat) (ds : List Char) :
    digitsValue (zeros k ++ ds) = digitsValue ds := by
  induction k with
  | zero => rfl
  | succ k ih =>
    have h : zeros (k + 1) ++ ds = '0' :: (zeros k ++ ds) := rfl
    rw [h]
    simpa [digitsValue] using ih

theorem roundHalfUp_bounds (p q : Nat) (hq : 0 < q) :
    (p : ℚ) / q - 1 / 2 < roundHalfUp p q ∧ (roundHalfUp p q : ℚ) ≤ (p : ℚ) / q + 1 / 2 := by
  unfold roundHalfUp
  have hq' : (0 : ℚ) < q := by exact_mod_cast hq
  have h1 : (2 * p + q) / (2 * q) * (2 * q) ≤ 2 * p + q := Nat.div_mul_le_self _ _
  have h2 : 2 * p + q < ((2 * p + q) / (2 * q) + 1) * (2 * q) :=
    (Nat.div_lt_iff_lt_mul (by omega)).1 (Nat.lt_succ_self _)
  generalize (2 * p + q) / (2 * q) = n at h1 h2
  have h1' : (n : ℚ) * (2 * q) ≤ 2 * p + q := by exact_mod_cast h1
  have h2' : (2 * p + q : ℚ) < (n + 1) * (2 * q) := by exact_mod_cast h2
  constructor
  · rw [div_sub_div _ _ hq'.ne' two_ne_zero, div_lt_iff₀ (by positivity)]
    nlinarith
  · rw [div_add_div _ _ hq'.ne' two_ne_zero, le_div_iff₀ (by positivity)]
    nlinarith

theorem zeros_digits (k : Nat) : ∀ c ∈ zeros k, isDecimalDigit c = true := by
  intro c hc
  rw [List.eq_of_mem_replicate hc]
  decide

theorem fixedDigits_spec (n f : Nat) :
    ∃ a b : List Char, fixedDigits n f = a ++ '.' :: b ∧ (0 < f → a ≠ []) ∧ b.length = f ∧
      (∀ c ∈ a ++ b, isDecimalDigit c = true) ∧ digitsValue (a ++ b) = n := by
  obtain ⟨-, hall, hv⟩ := toDigits_decimal n
  unfold fixedDigits
  simp only
  generalize hp : zeros (f + 1 - (Nat.toDigits 10 n).length) ++ Nat.toDigits 10 n = padded
  have hlen : f + 1 ≤ padded.length := by
    rw [← hp, List.length_append, zeros, List.length_replicate]
    omega
  refine ⟨padded.take (padded.length - f), padded.drop (padded.length - f), rfl, ?_, ?_, ?_, ?_⟩
  · intro _ h
    have := congrArg List.length h
    rw [List.length_take] at this
    simp at this
    omega
  · rw [List.length_drop]
    omega
  · rw [List.take_append_drop, ← hp]
    intro c hc
    rcases List.mem_append.1 hc with h | h
    · exact zeros_digits _ c h
    · exact hall c h
  · rw [List.take_append_drop, ← hp, digitsValue_zeros_append, hv]

theorem toFixed_eq (neg : Bool) (m e f : Nat) (hf : 0 < f)
    (hlt : m * 2 ^ e < 10 ^ 21 * 2 ^ 1074) :
    (JSNumber.fin neg m e).toFixed f =
      (if neg = true ∧ m ≠ 0 then "-" else "") ++
        String.mk (fixedDigits (roundHalfUp (m * 2 ^ e * 10 ^ f) (2 ^ 1074)) f) := by
  unfold JSNumber.toFixed
  simp only
  rw [if_neg (not_le.2 hlt), if_neg (by omega)]

theorem toFixed_fixedText (m e f : Nat) (hf : 0 < f) (hlt : m * 2 ^ e < 10 ^ 21 * 2 ^ 1074) :
    IsFixedText ((JSNumber.fin false m e).toFixed f) f
      (roundHalfUp (m * 2 ^ e * 10 ^ f) (2 ^ 1074)) := by
  rw [toFixed_eq false m e f hf hlt]
  obtain ⟨a, b, hab, hne, hlen, hall, hv⟩ :=
    fixedDigits_spec (roundHalfUp (m * 2 ^ e * 10 ^ f) (2 ^ 1074)) f
  exact ⟨a, b, by rw [hab]; rfl, hne hf, hlen, hall, hv⟩

theorem toFixed_nearest (m e f : Nat) :
    magnitude m e * 10 ^ f - 1 / 2 < roundHalfUp (m * 2 ^ e * 10 ^ f) (2 ^ 1074) ∧
      (roundHalfUp (m * 2 ^ e * 10 ^ f) (2 ^ 1074) : ℚ) ≤ magnitude m e * 10 ^ f + 1 / 2 := by
  unfold magnitude
  have hq : 0 < 2 ^ 1074 := by positivity
  generalize 2 ^ 1074 = q at hq ⊢
  have h := roundHalfUp_bounds (m * 2 ^ e * 10 ^ f) q hq
  have hm : ((m * 2 ^ e : Nat) : ℚ) / q * 10 ^ f = ((m * 2 ^ e * 10 ^ f : Nat) : ℚ) / (q : ℚ) := by
    rw [Nat.cast_mul (m * 2 ^ e) (10 ^ f), Nat.cast_pow 10 f, Nat.cast_ofNat]
    ring
  rw [hm]
  exact h

/-! ## `parseFloat` on the strings that the filter accepts -/

theorem takeWhile_digits_append (ds rest : List Char) (h : ∀ c ∈ ds, isDecimalDigit c = true) :
    (ds ++ rest).takeWhile isDecimalDigit = ds ++ rest.takeWhile isDecimalDigit := by
  induction ds with
  | nil => rfl
  | cons d ds ih =>
    rw [List.cons_append, List.takeWhile_cons_of_pos (h d (List.mem_cons_self _ _)),
      ih fun c hc => h c (List.mem_cons_of_mem _ hc), List.cons_append]

theorem dropWhile_digits_append (ds rest : List Char) (h : ∀ c ∈ ds, isDecimalDigit c = true) :
    (ds ++ rest).dropWhile isDecimalDigit = rest.dropWhile isDecimalDigit := by
  induction ds with
  | nil => rfl
  | cons d ds ih =>
    rw [List.cons_append, List.dropWhile_cons_of_pos (h d (List.mem_cons_self _ _)),
      ih fun c hc => h c (List.mem_cons_of_mem _ hc)]

theorem strUnsignedDecimalLiteral_digits (neg : Bool) (ds1 ds2 : List Char)
    (h1 : ∀ c ∈ ds1, isDecimalDigit c = true) (h2 : ∀ c ∈ ds2, isDecimalDigit c = true) :
    strUnsignedDecimalLiteral neg (ds1 ++ '.' :: ds2) =
      if ds1.isEmpty && ds2.isEmpty then .nan
      else roundDouble neg (digitsValue (ds1 ++ ds2)) (10 ^ ds2.length) := by
  have hinf : "Infinity".toList.isPrefixOf (ds1 ++ '.' :: ds2) = false := by
    cases ds1 with
    | nil => rfl
    | cons d ds =>
      have hd := (isDecimalDigit_iff d).1 (h1 d (List.mem_cons_self _ _))
      rcases hd with h | h | h | h | h | h | h | h | h | h <;> subst h <;> rfl
  have ht : (ds1 ++ '.' :: ds2).takeWhile isDecimalDigit = ds1 := by
    rw [takeWhile_digits_append _ _ h1]
    simp [List.takeWhile, show isDecimalDigit '.' = false by decide]
  have hd : (ds1 ++ '.' :: ds2).dropWhile isDecimalDigit = '.' :: ds2 := by
    rw [dropWhile_digits_append _ _ h1]
    simp [List.dropWhile, show isDecimalDigit '.' = false by decide]
  have ht2 : ds2.takeWhile isDecimalDigit = ds2 := by
    simpa using takeWhile_digits_append ds2 [] h2
  have hd2 : ds2.dropWhile isDecimalDigit = [] := by
    simpa using dropWhile_digits_append ds2 [] h2
  unfold strUnsignedDecimalLiteral
  simp only [hinf, ht, hd, ht2, hd2, exponentPart]
  simp

theorem strUnsignedDecimalLiteral_allDigits (neg : Bool) (ds : List Char) (hne : ds ≠ [])
    (h : ∀ c ∈ ds, isDecimalDigit c = true) :
    strUnsignedDecimalLiteral neg ds = roundDouble neg (digitsValue ds) (10 ^ 0) := by
  have hinf : "Infinity".toList.isPrefixOf ds = false := by
    cases ds with
    | nil => exact absurd rfl hne
    | cons d ds =>
      have hd := (isDecimalDigit_iff d).1 (h d (List.mem_cons_self _ _))
      rcases hd with h | h | h | h | h | h | h | h | h | h <;> subst h <;> rfl
  have ht : ds.takeWhile isDecimalDigit = ds := by
    simpa using takeWhile_digits_append ds [] h
  have hd : ds.dropWhile isDecimalDigit = [] := by
    simpa using dropWhile_digits_append ds [] h
  have he : ds.isEmpty = false := by
    cases ds with
    | nil => exact absurd rfl hne
    | cons d ds => rfl
  unfold strUnsignedDecimalLiteral
  simp only [hinf, ht, hd, exponentPart, he]
  simp

theorem parseFloat_of_head (A : String) (c : Char) (rest : List Char)
    (hA : A.toList = c :: rest) (hc : isDecimalDigit c = true ∨ c = '.') :
    parseFloat A = strUnsignedDecimalLiteral false (c :: rest) := by
  have hws : isStrWhiteSpaceChar c = false := by
    rcases hc with h | h
    · rcases (isDecimalDigit_iff c).1 h with h | h | h | h | h | h | h | h | h | h <;>
        subst h <;> decide
    · subst h; decide
  have hplus : c ≠ '+' := by
    rintro rfl
    rcases hc with h | h
    · exact absurd h (by decide)
    · exact absurd h (by decide)
  have hminus : c ≠ '-' := by
    rintro rfl
    rcases hc with h | h
    · exact absurd h (by decide)
    · exact absurd h (by decide)
  unfold parseFloat
  rw [hA, List.dropWhile_cons_of_neg (by simp [hws])]
  split
  · rename_i heq
    exact absurd (List.cons.inj heq).1 hplus
  · rename_i heq
    exact absurd (List.cons.inj heq).1 hminus
  · rfl

theorem parseFloat_accepted (A : String) (h : amountAccepted A = true) :
    parseFloat A = .nan ∨ ∃ mant k, parseFloat A = roundDouble false mant (10 ^ k) := by
  obtain ⟨ds1, ds2, h1, h2, hA | hA⟩ := (amountAccepted_iff A).1 h
  · have hall : ∀ c ∈ ds1 ++ ds2, isDecimalDigit c = true := by
      intro c hc
      rcases List.mem_append.1 hc with h | h
      · exact h1 c h
      · exact h2 c h
    cases hds : ds1 ++ ds2 with
    | nil =>
      left
      have : A = "" := by
        apply String.ext
        show A.toList = []
        rw [hA, hds]
      subst this
      rfl
    | cons c rest =>
      right
      rw [hds] at hA hall
      rw [parseFloat_of_head A c rest hA (Or.inl (hall c (List.mem_cons_self _ _))),
        strUnsignedDecimalLiteral_allDigits false _ (by simp) hall]
      exact ⟨_, _, rfl⟩
  · have hhead : ∃ c rest, ds1 ++ '.' :: ds2 = c :: rest ∧ (isDecimalDigit c = true ∨ c = '.') := by
      cases ds1 with
      | nil => exact ⟨'.', ds2, rfl, Or.inr rfl⟩
      | cons d ds => exact ⟨d, ds ++ '.' :: ds2, rfl, Or.inl (h1 d (List.mem_cons_self _ _))⟩
    obtain ⟨c, rest, hcr, hc⟩ := hhead
    rw [parseFloat_of_head A c rest (hA.trans hcr) hc, ← hcr,
      strUnsignedDecimalLiteral_digits false ds1 ds2 h1 h2]
    split
    · exact Or.inl rfl
    · exact Or.inr ⟨_, _, rfl⟩

theorem roundDouble_false_cases (num den : Nat) :
    roundDouble false num den = .inf false ∨ ∃ m e, roundDouble false num den = .fin false m e := by
  unfold roundDouble
  simp only
  split_ifs
  all_goals first | exact Or.inl rfl | exact Or.inr ⟨_, _, rfl⟩

theorem mul_fin_fin (a b : Bool) (m e m2 e2 : Nat) :
    (JSNumber.fin a m e).mul (.fin b m2 e2) =
      roundDouble (a != b) (m * m2 * 2 ^ (e + e2)) (2 ^ 2148) := rfl

theorem mul_positive_cases (x : JSNumber) (mR eR : Nat) (hR : mR ≠ 0)
    (hx : x = .inf false ∨ ∃ m e, x = .fin false m e) :
    x.mul (.fin false mR eR) = .inf false ∨ ∃ m e, x.mul (.fin false mR eR) = .fin false m e := by
  rcases hx with rfl | ⟨m, e, rfl⟩
  · left
    show (if mR = 0 then JSNumber.nan else JSNumber.inf (false != false)) = _
    rw [if_neg hR]
    rfl
  · rw [mul_fin_fin]
    exact roundDouble_false_cases _ _

theorem filter_digits (ds : List Char) (h : ∀ c ∈ ds, isDecimalDigit c = true) :
    ds.filter isDecimalDigit = ds :=
  List.filter_eq_self.2 h

theorem dropWhile_not_point (ds rest : List Char) (h : ∀ c ∈ ds, isDecimalDigit c = true) :
    (ds ++ rest).dropWhile (fun c => c != '.') = rest.dropWhile (fun c => c != '.') := by
  induction ds with
  | nil => rfl
  | cons d ds ih =>
    have hd : (d != '.') = true := by
      simpa using digit_ne_point d (h d (List.mem_cons_self _ _))
    rw [List.cons_append, List.dropWhile_cons]
    simp only [hd, if_true]
    exact ih fun c hc => h c (List.mem_cons_of_mem _ hc)

theorem parseFloat_decimal (A : String) (h : amountAccepted A = true)
    (hnum : parseFloat A ≠ .nan) :
    parseFloat A = roundDouble false (decimalNumerator A) (10 ^ decimalPlaces A) := by
  obtain ⟨ds1, ds2, h1, h2, hA | hA⟩ := (amountAccepted_iff A).1 h
  · have hall : ∀ c ∈ ds1 ++ ds2, isDecimalDigit c = true := by
      intro c hc
      rcases List.mem_append.1 hc with h | h
      · exact h1 c h
      · exact h2 c h
    have hplaces : decimalPlaces A = 0 := by
      unfold decimalPlaces
      rw [hA]
      have := dropWhile_not_point (ds1 ++ ds2) [] hall
      rw [List.append_nil] at this
      rw [this]
      rfl
    have hnumer : decimalNumerator A = digitsValue (ds1 ++ ds2) := by
      unfold decimalNumerator
      rw [hA, filter_digits _ hall]
    cases hds : ds1 ++ ds2 with
    | nil =>
      exfalso
      apply hnum
      have : A = "" := by
        apply String.ext
        show A.toList = []
        rw [hA, hds]
      subst this
      rfl
    | cons c rest =>
      rw [hnumer, hplaces, hds]
      rw [hds] at hA hall
      rw [parseFloat_of_head A c rest hA (Or.inl (hall c (List.mem_cons_self _ _))),
        strUnsignedDecimalLiteral_allDigits false _ (by simp) hall]
  · have hhead : ∃ c rest, ds1 ++ '.' :: ds2 = c :: rest ∧ (isDecimalDigit c = true ∨ c = '.') := by
      cases ds1 with
      | nil => exact ⟨'.', ds2, rfl, Or.inr rfl⟩
      | cons d ds => exact ⟨d, ds ++ '.' :: ds2, rfl, Or.inl (h1 d (List.mem_cons_self _ _))⟩
    obtain ⟨c, rest, hcr, hc⟩ := hhead
    have hparse := parseFloat_of_head A c rest (hA.trans hcr) hc
    rw [← hcr, strUnsignedDecimalLiteral_digits false ds1 ds2 h1 h2] at hparse
    have hplaces : decimalPlaces A = ds2.length := by
      unfold decimalPlaces
      rw [hA, dropWhile_not_point ds1 _ h1]
      simp [List.dropWhile]
    have hnumer : decimalNumerator A = digitsValue (ds1 ++ ds2) := by
      unfold decimalNumerator
      rw [hA, List.filter_append, filter_digits _ h1,
        List.filter_cons_of_neg (by decide), filter_digits _ h2]
    rw [hnumer, hplaces, hparse]
    split
    · rename_i hempty
      rw [hparse, if_pos hempty] at hnum
      exact absurd rfl hnum
    · rfl

theorem roundDouble_nearest (neg neg2 : Bool) (num den m e : Nat) (hden : 0 < den)
    (h : roundDouble neg num den = .fin neg2 m e) :
    |magnitude m e - (num : ℚ) / den| ≤ magnitude 1 e / 2 := by
  obtain ⟨-, -, -, -, h1, h2⟩ := roundDouble_spec neg neg2 num den m e hden h
  unfold magnitude
  have hS : 0 < 2 ^ 1074 := by positivity
  generalize 2 ^ 1074 = S at hS h1 h2 ⊢
  have hS' : (0 : ℚ) < S := by exact_mod_cast hS
  have hden' : (0 : ℚ) < den := by exact_mod_cast hden
  have h1' : (2 : ℚ) * ((m * 2 ^ e : Nat) * den) ≤ 2 * (num * S) + den * (1 * 2 ^ e : Nat) := by
    rw [Nat.one_mul]
    exact_mod_cast h1
  have h2' : (2 : ℚ) * (num * S) ≤ 2 * ((m * 2 ^ e : Nat) * den) + den * (1 * 2 ^ e : Nat) := by
    rw [Nat.one_mul]
    exact_mod_cast h2
  generalize ((m * 2 ^ e : Nat) : ℚ) = x at h1' h2' ⊢
  generalize ((1 * 2 ^ e : Nat) : ℚ) = u at h1' h2' ⊢
  rw [abs_le, div_sub_div _ _ hS'.ne' hden'.ne', div_div, le_div_iff₀ (by positivity),
    div_le_iff₀ (by positivity)]
  constructor
  · have : -(u / (S * 2)) * (S * den) = -(u * den) / 2 := by
      field_simp
      ring
    rw [this]
    linarith
  · have : u / (S * 2) * (S * den) = u * den / 2 := by
      field_simp
      ring
    rw [this]
    linarith

theorem mul_nearest (mA eA mR eR m e : Nat)
    (h : (JSNumber.fin false mA eA).mul (.fin false mR eR) = .fin false m e) :
    |magnitude m e - magnitude mA eA * magnitude mR eR| ≤ magnitude 1 e / 2 := by
  rw [mul_fin_fin] at h
  have hn := roundDouble_nearest _ _ _ _ m e (by positivity) h
  have hp : magnitude mA eA * magnitude mR eR =
      ((mA * mR * 2 ^ (eA + eR) : Nat) : ℚ) / ((2 ^ 2148 : Nat) : ℚ) := by
    unfold magnitude
    have h2 : (2 ^ 2148 : Nat) = 2 ^ 1074 * 2 ^ 1074 := by rw [← pow_add]
    rw [h2]
    have hS : 0 < 2 ^ 1074 := by positivity
    generalize 2 ^ 1074 = S at hS ⊢
    have hS' : (0 : ℚ) < S := by exact_mod_cast hS
    rw [pow_add]
    push_cast
    field_simp
    ring
  rw [hp]
  exact hn

/-! ## The end of a run of the fetcher, in the state in which it resumes -/

theorem applyAll_convertEffect (s s2 : State) :
    s.applyAll (convertEffect s2) = s ∨
      ∃ v, s.applyAll (convertEffect s2) = { s with convertedAmount := v } := by
  unfold convertEffect
  split
  · exact Or.inr ⟨_, rfl⟩
  · exact Or.inl rfl

theorem commit_state_of_same_pair (prev next : State) (net : FetchOutcome)
    (h : fetchDeps prev = fetchDeps next) :
    (commit (some prev) next net).state = next ∨
      ∃ v, (commit (some prev) next net).state = { next with convertedAmount := v } := by
  unfold commit depsChanged
  simp only [h, ne_eq, not_true_eq_false, decide_False, Bool.false_eq_true, if_false,
    List.flatMap_nil, List.append_nil]
  generalize hc : (if decide (convertDeps prev ≠ convertDeps next) = true then convertEffect next
    else []) = converted
  have h1 : next.applyAll converted = next ∨
      ∃ v, next.applyAll converted = { next with convertedAmount := v } := by
    rw [← hc]
    split
    · exact applyAll_convertEffect next next
    · exact Or.inl rfl
  generalize next.applyAll converted = second at h1 ⊢
  have h2 : ∀ us, (us = [] ∨ us = convertEffect second) →
      second.applyAll us = second ∨ ∃ v, second.applyAll us = { second with convertedAmount := v } := by
    rintro us (rfl | rfl)
    · exact Or.inl rfl
    · exact applyAll_convertEffect second second
  have h3 := h2 (if decide (convertDeps next ≠ convertDeps second) = true then
    convertEffect second else []) (by split <;> simp)
  rcases h1 with rfl | ⟨v, rfl⟩
  · exact h3
  · rcases h3 with h3 | ⟨v2, h3⟩
    · rw [h3]
      exact Or.inr ⟨v, rfl⟩
    · rw [h3]
      exact Or.inr ⟨v2, rfl⟩

theorem commit_state_of_same_deps (prev next : State) (net : FetchOutcome)
    (hc : convertDeps prev = convertDeps next) (hf : fetchDeps prev = fetchDeps next) :
    (commit (some prev) next net).state = next := by
  unfold commit depsChanged
  simp [hc, hf, State.applyAll]

theorem step_settle (w : World) (i : Nat) (us : List Update) (net : FetchOutcome)
    (h : w.pending.get? i = some us) :
    (step w (.settle i) net).ui = (commit (some w.ui) (w.ui.applyAll us) net).state := by
  unfold step
  simp only [h]
  rfl

/-- A continuation of the failure path, run in any world: it sets the message and clears the
loading flag, and every other cell, the rate included, stays as the world had it. -/
theorem step_settle_failure (w : World) (i : Nat) (net : FetchOutcome)
    (h : w.pending.get? i = some [.setError fetchErrorMessage, .setLoading false]) :
    (step w (.settle i) net).ui = { w.ui with error := fetchErrorMessage, loading := false } := by
  rw [step_settle w i _ net h]
  exact commit_state_of_same_deps _ _ _ rfl rfl

/-- A continuation of the success path, run in any world: it sets the rate and clears the
loading flag, and it leaves the error message as the world had it. -/
theorem step_settle_success (w : World) (i : Nat) (rate : JSNumber) (net : FetchOutcome)
    (h : w.pending.get? i = some [.setExchangeRate rate, .setLoading false]) :
    (step w (.settle i) net).ui.exchangeRate = rate ∧
      (step w (.settle i) net).ui.loading = false ∧
      (step w (.settle i) net).ui.error = w.ui.error := by
  rw [step_settle w i _ net h]
  rcases commit_state_of_same_pair w.ui
    (w.ui.applyAll [.setExchangeRate rate, .setLoading false]) net rfl with h2 | ⟨v, h2⟩ <;>
    rw [h2] <;> exact ⟨rfl, rfl, rfl⟩

theorem commit_renders_last (prev : Option State) (next : State) (net : FetchOutcome) :
    (commit prev next net).renders = [] ∨
      (commit prev next net).renders.getLast? = some (commit prev next net).state := by
  unfold commit
  simp only
  generalize (if depsChanged convertDeps prev next = true then convertEffect next else []) ++
    (if depsChanged fetchDeps prev next = true then
      [fetchExchangeRate next net] else []).flatMap FetchRun.sync = us
  generalize next.applyAll us = second
  generalize second.applyAll (if depsChanged convertDeps (some next) second = true then
    convertEffect second else []) = final
  by_cases h2 : second = next
  · subst h2
    by_cases h1 : prev = some second <;> by_cases h3 : final = second <;> simp [h1, h3]
  · by_cases h1 : prev = some next <;> by_cases h3 : final = second <;> simp [h1, h2, h3]

/-! ## The claims on the handlers and on the fetcher -/

theorem handleAmountChange_cases (s : State) (v : String) :
    (DigitsPointDigits v.toList ∧ handleAmountChange s v = { s with amount := v }) ∨
      (¬ DigitsPointDigits v.toList ∧ handleAmountChange s v = s) := by
  by_cases h : amountAccepted v = true
  · exact Or.inl ⟨(amountAccepted_iff v).1 h, by simp [handleAmountChange, h, State.apply]⟩
  · exact Or.inr ⟨fun hd => h ((amountAccepted_iff v).2 hd), by simp [handleAmountChange, h]⟩

/-- C1: `handleAmountChange` replaces the amount by the candidate `v` exactly when `v` is an
optional run of digits, at most one point and an optional run of digits, and leaves the
state as it was for every other `v`; `""`, `"12"`, `"12."` and `".5"` are accepted and
`"12.3.4"`, `"abc"` and `"1-2"` are rejected. -/
theorem C1_handleAmountChange_filter (s : State) (v : String) :
    ((DigitsPointDigits v.toList ∧ handleAmountChange s v = { s with amount := v }) ∨
      (¬ DigitsPointDigits v.toList ∧ handleAmountChange s v = s)) ∧
    handleAmountChange s "" = { s with amount := "" } ∧
    handleAmountChange s "12" = { s with amount := "12" } ∧
    handleAmountChange s "12." = { s with amount := "12." } ∧
    handleAmountChange s ".5" = { s with amount := ".5" } ∧
    handleAmountChange s "12.3.4" = s ∧
    handleAmountChange s "abc" = s ∧
    handleAmountChange s "1-2" = s := by
  refine ⟨handleAmountChange_cases s v, ?_, ?_, ?_, ?_, ?_, ?_, ?_⟩
  · simp [handleAmountChange, State.apply, show amountAccepted "" = true by decide]
  · simp [handleAmountChange, State.apply, show amountAccepted "12" = true by decide]
  · simp [handleAmountChange, State.apply, show amountAccepted "12." = true by decide]
  · simp [handleAmountChange, State.apply, show amountAccepted ".5" = true by decide]
  · simp [handleAmountChange, show amountAccepted "12.3.4" = false by decide]
  · simp [handleAmountChange, show amountAccepted "abc" = false by decide]
  · simp [handleAmountChange, show amountAccepted "1-2" = false by decide]

/-- C8, as stated, fails: the point alone is neither empty nor a numeral (it has no digit),
and `handleAmountChange` accepts it in place of the prior amount `"100"`. -/
theorem C8_point_alone_accepted :
    initialState.amount = "100" ∧ (handleAmountChange initialState ".").amount = "." ∧
      "." ≠ "" ∧ ¬ IsNumeral ".".toList := by
  refine ⟨rfl, by decide, by decide, ?_⟩
  rintro ⟨⟨c, hc, hd⟩, -⟩
  have : c = '.' := by simpa using hc
  subst this
  exact absurd hd (by decide)

/-- C8, amended: `handleAmountChange` accepts a new value exactly when it is made of digits
and points only, with at most one point; so it accepts the empty string, every numeral, and
the point alone, and it discards any other value and retains the prior amount. -/
theorem C8_handleAmountChange_accepts (s : State) (v : String) :
    ((((∀ c ∈ v.toList, isDecimalDigit c = true ∨ c = '.') ∧ v.toList.count '.' ≤ 1) ∧
        handleAmountChange s v = { s with amount := v }) ∨
      (¬ ((∀ c ∈ v.toList, isDecimalDigit c = true ∨ c = '.') ∧ v.toList.count '.' ≤ 1) ∧
        handleAmountChange s v = s)) ∧
    ((v = "" ∨ IsNumeral v.toList) → handleAmountChange s v = { s with amount := v }) ∧
    handleAmountChange s "." = { s with amount := "." } := by
  refine ⟨?_, ?_, ?_⟩
  · rw [← digitsPointDigits_iff_count]
    exact handleAmountChange_cases s v
  · intro h
    have hd : DigitsPointDigits v.toList := by
      rcases h with rfl | h
      · exact ⟨[], [], by simp, by simp, Or.inl rfl⟩
      · exact h.2
    rcases handleAmountChange_cases s v with h' | h'
    · exact h'.2
    · exact absurd hd h'.1
  · simp [handleAmountChange, State.apply, show amountAccepted "." = true by decide]

/-- C7: `swapCurrencies` puts the old target in the source and the old source in the target
and leaves the amount, the rate, the converted amount, the loading flag and the error message
as they were; applied twice it gives back the original state. -/
theorem C7_swapCurrencies_exchanges (s : State) :
    (swapCurrencies s).fromCurrency = s.toCurrency ∧
    (swapCurrencies s).toCurrency = s.fromCurrency ∧
    (swapCurrencies s).amount = s.amount ∧
    (swapCurrencies s).exchangeRate = s.exchangeRate ∧
    (swapCurrencies s).convertedAmount = s.convertedAmount ∧
    (swapCurrencies s).loading = s.loading ∧
    (swapCurrencies s).error = s.error ∧
    swapCurrencies (swapCurrencies s) = s :=
  ⟨rfl, rfl, rfl, rfl, rfl, rfl, rfl, rfl⟩

theorem magnitude_one : magnitude (2 ^ 52) 1022 = 1 := by
  unfold magnitude
  have h : 2 ^ 52 * 2 ^ 1022 = 2 ^ 1074 := by rw [← pow_add]
  rw [h]
  have hS : 0 < 2 ^ 1074 := by positivity
  generalize 2 ^ 1074 = S at hS
  have hS' : (S : ℚ) ≠ 0 := by exact_mod_cast hS.ne'
  exact div_self hS'

/-- C3: when the source equals the target, `fetchExchangeRate` requests nothing, its only
setter call is `setExchangeRate(1)` (so the loading flag is never engaged), and the state it
leaves is the one it found with the rate set to the Number `1`. -/
theorem C3_same_currency_no_request (s : State) (net : FetchOutcome)
    (h : s.fromCurrency = s.toCurrency) :
    (fetchExchangeRate s net).requests = [] ∧
    (fetchExchangeRate s net).sync = [.setExchangeRate .one] ∧
    (fetchExchangeRate s net).resumed = [] ∧
    (fetchExchangeRate s net).pending s = { s with exchangeRate := .one } ∧
    (fetchExchangeRate s net).final s = { s with exchangeRate := .one } ∧
    ((fetchExchangeRate s net).final s).exchangeRate = .fin false (2 ^ 52) 1022 ∧
    magnitude (2 ^ 52) 1022 = 1 := by
  refine ⟨?_, ?_, ?_, ?_, ?_, ?_, magnitude_one⟩ <;>
    simp [fetchExchangeRate, h, FetchRun.final, FetchRun.pending, State.applyAll, State.apply,
      JSNumber.one]

theorem C3_same_currency_no_request_witness :
    (fetchExchangeRate { initialState with toCurrency := .USD } .rejected).requests = [] ∧
    (fetchExchangeRate { initialState with toCurrency := .USD } .rejected).final
      { initialState with toCurrency := .USD } =
      { initialState with toCurrency := .USD, exchangeRate := .one } :=
  ⟨(C3_same_currency_no_request { initialState with toCurrency := .USD } .rejected rfl).1,
   (C3_same_currency_no_request { initialState with toCurrency := .USD } .rejected rfl).2.2.2.2.1⟩

theorem fetch_final_of_ne (s : State) (net : FetchOutcome)
    (h : s.fromCurrency ≠ s.toCurrency) :
    (fetchExchangeRate s net).final s =
      match tryBlock s.toCurrency net with
      | some rate => { s with exchangeRate := rate, error := "", loading := false }
      | none => { s with error := fetchErrorMessage, loading := false } := by
  unfold fetchExchangeRate FetchRun.final fetchResumed
  rw [if_neg h]
  cases tryBlock s.toCurrency net <;> rfl

/-- C4, as stated, fails: the run of the mount (USD to EUR) is rejected, but while its request
is pending the target is changed to GBP and that run's answer sets the rate to `0.79`; when
the rejected run resumes it sets the message and clears the loading flag, and the rate it
ends with is `0.79`, not the `0` that the rate was before the call. -/
theorem C4_rate_set_by_another_run :
    initialState.exchangeRate = .zero ∧
    (mount .rejected).pending = [(fetchExchangeRate initialState .rejected).resumed] ∧
    (run .rejected [(.selectTo .GBP, gbpResponse), (.settle 1, .rejected)]).pending
      = [(fetchExchangeRate initialState .rejected).resumed] ∧
    (run .rejected [(.selectTo .GBP, gbpResponse), (.settle 1, .rejected),
      (.settle 0, .rejected)]).ui.exchangeRate = parseFloat "0.79" ∧
    parseFloat "0.79" ≠ JSNumber.zero ∧
    (run .rejected [(.selectTo .GBP, gbpResponse), (.settle 1, .rejected),
      (.settle 0, .rejected)]).ui.error = "Unable to fetch exchange rates. Please try again." ∧
    (run .rejected [(.selectTo .GBP, gbpResponse), (.settle 1, .rejected),
      (.settle 0, .rejected)]).ui.loading = false := by
  decide!

/-- C4, amended: when the source differs from the target and the fetch fails (the call
rejects, the status is not a success, or the rates have no entry for the target code), the
setter calls of `fetchExchangeRate` after its `await` are `setError` with the message
`"Unable to fetch exchange rates. Please try again."` and `setLoading(false)`.  So in
whatever state `t` the run resumes, it ends in `t` with that message and the loading flag
false: the rate is the rate of `t`, never written and never reset to `0`.  The same holds
in any world in which that continuation is pending, after the commit; and when nothing
happens between the call and the answer the rate is the one before the call. -/
theorem C4_failed_fetch_leaves_rate (s t : State) (net : FetchOutcome)
    (hne : s.fromCurrency ≠ s.toCurrency)
    (hfail : net = .rejected ∨ (∃ body, net = .response false body) ∨
      (∃ rates, net = .response true (some rates) ∧ rates.lookup s.toCurrency.code = none)) :
    (fetchExchangeRate s net).resumed =
      [.setError "Unable to fetch exchange rates. Please try again.", .setLoading false] ∧
    t.applyAll (fetchExchangeRate s net).resumed =
      { t with error := "Unable to fetch exchange rates. Please try again.",
               loading := false } ∧
    (t.exchangeRate = s.exchangeRate →
      (t.applyAll (fetchExchangeRate s net).resumed).exchangeRate = s.exchangeRate) ∧
    (∀ (w : World) (i : Nat) (net2 : FetchOutcome),
      w.pending.get? i = some (fetchExchangeRate s net).resumed →
      (step w (.settle i) net2).ui =
        { w.ui with error := "Unable to fetch exchange rates. Please try again.",
                    loading := false }) ∧
    ((fetchExchangeRate s net).final s).error
        = "Unable to fetch exchange rates. Please try again." ∧
    ((fetchExchangeRate s net).final s).exchangeRate = s.exchangeRate ∧
    ((fetchExchangeRate s net).final s).loading = false := by
  have ht : tryBlock s.toCurrency net = none := by
    rcases hfail with rfl | ⟨body, rfl⟩ | ⟨rates, rfl, hl⟩
    · rfl
    · rfl
    · simp [tryBlock, hl]
  have hres : (fetchExchangeRate s net).resumed =
      [.setError fetchErrorMessage, .setLoading false] := by
    unfold fetchExchangeRate fetchResumed
    rw [if_neg hne, ht]
  refine ⟨hres, ?_, ?_, ?_, ?_⟩
  · rw [hres]
    rfl
  · intro h
    rw [hres]
    exact h
  · intro w i net2 hp
    rw [hres] at hp
    exact step_settle_failure w i net2 hp
  · rw [fetch_final_of_ne s net hne, ht]
    exact ⟨rfl, rfl, rfl⟩

theorem C4_failed_fetch_leaves_rate_witness :
    (step (run .rejected [(.selectTo .GBP, gbpResponse), (.settle 1, .rejected)]) (.settle 0)
        .rejected).ui =
      { (run .rejected [(.selectTo .GBP, gbpResponse), (.settle 1, .rejected)]).ui with
          error := "Unable to fetch exchange rates. Please try again.", loading := false } :=
  (C4_failed_fetch_leaves_rate initialState initialState .rejected (by decide)
    (Or.inl rfl)).2.2.2.1
    (run .rejected [(.selectTo .GBP, gbpResponse), (.settle 1, .rejected)]) 0 .rejected
    (by decide!)

/-- C6, as stated, fails, in two ways.  A success response whose rates give `0` for the target
code is treated as a failure: the error message is set and the rate stays what it was (`1`
here).  And a run that succeeds does not end with an empty message when another run failed
while its request was pending: the run of the mount (USD to EUR) gets `0.92`, but the target
is changed to GBP meanwhile and that run is rejected; the first run then ends with the rate
`0.92` and the message of the other run still set. -/
theorem C6_zero_entry_is_failure :
    [("EUR", JSNumber.zero)].lookup initialState.toCurrency.code = some JSNumber.zero ∧
    ((fetchExchangeRate { initialState with exchangeRate := .one }
        (.response true (some [("EUR", .zero)]))).final
        { initialState with exchangeRate := .one }).error
      = "Unable to fetch exchange rates. Please try again." ∧
    ((fetchExchangeRate { initialState with exchangeRate := .one }
        (.response true (some [("EUR", .zero)]))).final
        { initialState with exchangeRate := .one }).exchangeRate = .one ∧
    JSNumber.one ≠ JSNumber.zero ∧
    (run eurResponse [(.selectTo .GBP, .rejected), (.settle 1, .rejected)]).pending
      = [(fetchExchangeRate initialState eurResponse).resumed] ∧
    (run eurResponse [(.selectTo .GBP, .rejected), (.settle 1, .rejected),
      (.settle 0, .rejected)]).ui.exchangeRate = parseFloat "0.92" ∧
    (run eurResponse [(.selectTo .GBP, .rejected), (.settle 1, .rejected),
      (.settle 0, .rejected)]).ui.loading = false ∧
    (run eurResponse [(.selectTo .GBP, .rejected), (.settle 1, .rejected),
      (.settle 0, .rejected)]).ui.error = "Unable to fetch exchange rates. Please try again." := by
  decide!

/-- C6, amended: when the source differs from the target, `fetchExchangeRate` clears the
error message and sets the loading flag before its request.  Either the response has a
success status and its rates hold a truthy (nonzero) entry for the target code: then the
setter calls after the `await` are `setExchangeRate` with that entry and `setLoading(false)`,
so in whatever state the run resumes it ends with the rate equal to the entry, the loading
flag false and the error message as that state has it, which is empty when nothing happened
since the call.  Or the call is rejected, the status is not a success, no rates can be read,
the target key is missing, or the entry is falsy (`0`): then the run ends with the error
message set, the rate untouched and the loading flag false. -/
theorem C6_fetch_success_or_failure (s t : State) (net : FetchOutcome)
    (hne : s.fromCurrency ≠ s.toCurrency) :
    (fetchExchangeRate s net).sync = [.setLoading true, .setError ""] ∧
    ((fetchExchangeRate s net).pending s).error = "" ∧
    ((∃ rates rate, net = .response true (some rates) ∧
        rates.lookup s.toCurrency.code = some rate ∧ rate.truthy = true ∧
        (fetchExchangeRate s net).resumed = [.setExchangeRate rate, .setLoading false] ∧
        t.applyAll (fetchExchangeRate s net).resumed =
          { t with exchangeRate := rate, loading := false } ∧
        (t.error = "" → (t.applyAll (fetchExchangeRate s net).resumed).error = "") ∧
        (∀ (w : World) (i : Nat) (net2 : FetchOutcome),
          w.pending.get? i = some (fetchExchangeRate s net).resumed →
          (step w (.settle i) net2).ui.exchangeRate = rate ∧
          (step w (.settle i) net2).ui.loading = false ∧
          (step w (.settle i) net2).ui.error = w.ui.error) ∧
        (fetchExchangeRate s net).final s =
          { s with exchangeRate := rate, error := "", loading := false }) ∨
    ((net = .rejected ∨ (∃ body, net = .response false body) ∨ net = .response true none ∨
        (∃ rates, net = .response true (some rates) ∧
          rates.lookup s.toCurrency.code = none) ∨
        (∃ rates rate, net = .response true (some rates) ∧
          rates.lookup s.toCurrency.code = some rate ∧ rate.truthy = false)) ∧
      (fetchExchangeRate s net).resumed =
        [.setError "Unable to fetch exchange rates. Please try again.", .setLoading false] ∧
      t.applyAll (fetchExchangeRate s net).resumed =
        { t with error := "Unable to fetch exchange rates. Please try again.",
                 loading := false } ∧
      (fetchExchangeRate s net).final s =
        { s with error := "Unable to fetch exchange rates. Please try again.",
                 loading := false })) := by
  have hsync : (fetchExchangeRate s net).sync = [.setLoading true, .setError ""] := by
    unfold fetchExchangeRate
    rw [if_neg hne]
  have hres : (fetchExchangeRate s net).resumed = fetchResumed s.toCurrency net := by
    unfold fetchExchangeRate
    rw [if_neg hne]
  have hfailure : tryBlock s.toCurrency net = none →
      (fetchExchangeRate s net).resumed =
        [.setError "Unable to fetch exchange rates. Please try again.", .setLoading false] ∧
      t.applyAll (fetchExchangeRate s net).resumed =
        { t with error := "Unable to fetch exchange rates. Please try again.",
                 loading := false } ∧
      (fetchExchangeRate s net).final s =
        { s with error := "Unable to fetch exchange rates. Please try again.",
                 loading := false } := by
    intro ht
    have h1 : (fetchExchangeRate s net).resumed =
        [.setError fetchErrorMessage, .setLoading false] := by
      rw [hres, fetchResumed, ht]
    refine ⟨h1, ?_, ?_⟩
    · rw [h1]
      rfl
    · rw [fetch_final_of_ne s net hne, ht]
      rfl
  refine ⟨hsync, by rw [FetchRun.pending, hsync]; rfl, ?_⟩
  rcases net with _ | ⟨ok, body⟩
  · exact Or.inr ⟨Or.inl rfl, hfailure rfl⟩
  · cases ok
    · exact Or.inr ⟨Or.inr (Or.inl ⟨body, rfl⟩), hfailure rfl⟩
    · cases body with
      | none => exact Or.inr ⟨Or.inr (Or.inr (Or.inl rfl)), hfailure rfl⟩
      | some rates =>
        cases hl : rates.lookup s.toCurrency.code with
        | none =>
          exact Or.inr ⟨Or.inr (Or.inr (Or.inr (Or.inl ⟨rates, rfl, hl⟩))),
            hfailure (by simp [tryBlock, hl])⟩
        | some rate =>
          cases ht : rate.truthy
          · exact Or.inr ⟨Or.inr (Or.inr (Or.inr (Or.inr ⟨rates, rate, rfl, hl, ht⟩))),
              hfailure (by simp [tryBlock, hl, ht])⟩
          · have htry : tryBlock s.toCurrency (.response true (some rates)) = some rate := by
              simp [tryBlock, hl, ht]
            have h1 : (fetchExchangeRate s (.response true (some rates))).resumed =
                [.setExchangeRate rate, .setLoading false] := by
              rw [hres, fetchResumed, htry]
            refine Or.inl ⟨rates, rate, rfl, hl, ht, h1, ?_, ?_, ?_, ?_⟩
            · rw [h1]
              rfl
            · intro h
              rw [h1]
              exact h
            · intro w i net2 hp
              rw [h1] at hp
              exact step_settle_success w i rate net2 hp
            · rw [fetch_final_of_ne s _ hne, htry]

theorem C6_fetch_success_or_failure_witness :
    (fetchExchangeRate initialState eurResponse).sync = [.setLoading true, .setError ""] ∧
    (fetchExchangeRate initialState eurResponse).final initialState =
      { initialState with exchangeRate := parseFloat "0.92", error := "", loading := false } :=
  ⟨(C6_fetch_success_or_failure initialState initialState eurResponse (by decide)).1,
    by decide!⟩

/-! ## The claims on the effects -/

/-- C5, as stated, fails: the effect runs after the render that follows a change is
committed, so that render still shows the old converted amount.  With the amount `"100"` and
the rate `0.92` the converted amount is `"92.00"`; the preset `500` leads to a render with the
amount `"500"`, the rate `0.92` and the converted amount `"92.00"`, and only the next render
has `"460.00"`.  In the same way the render that follows the first answer shows `"0 EUR"`
beside `"1 USD = 0.9200 EUR"` before it shows `"92.00 EUR"`. -/
theorem C5_render_before_effect_is_stale :
    (run eurResponse [(.settle 0, .rejected)]).ui.amount = "100" ∧
    (run eurResponse [(.settle 0, .rejected)]).ui.convertedAmount = .str "92.00" ∧
    (step (run eurResponse [(.settle 0, .rejected)]) (.quickConvert 3) .rejected).ui =
      (commit (some (run eurResponse [(.settle 0, .rejected)]).ui)
        ((run eurResponse [(.settle 0, .rejected)]).ui.apply (.setAmount "500")) .rejected).state ∧
    (commit (some (run eurResponse [(.settle 0, .rejected)]).ui)
        ((run eurResponse [(.settle 0, .rejected)]).ui.apply (.setAmount "500")) .rejected).renders.map
        (fun r => (r.amount, r.exchangeRate.truthy, r.convertedAmount))
      = [("500", true, .str "92.00"), ("500", true, .str "460.00")] ∧
    ((parseFloat "500").mul (parseFloat "0.92")).toFixed 2 = "460.00" ∧
    (mount eurResponse).pending = [(fetchExchangeRate initialState eurResponse).resumed] ∧
    (commit (some (mount eurResponse).ui)
        ((mount eurResponse).ui.applyAll (fetchExchangeRate initialState eurResponse).resumed)
        .rejected).renders.map (fun r => ((render r).result, (render r).rateInfo))
      = [(.converted "0 EUR", .line "1 USD = 0.9200 EUR"),
         (.converted "92.00 EUR", .line "1 USD = 0.9200 EUR")] := by
  decide!

/-- The guard of line 66 (the comment of line 64 reads: calculate the converted amount whenever
the amount or the exchange rate changes): with a falsy rate or an empty amount the effect
calls no setter. -/
theorem convertEffect_of_falsy (s : State) (h : s.exchangeRate.truthy = false ∨ s.amount = "") :
    convertEffect s = [] := by
  have hg : (s.exchangeRate.truthy && s.amount != "") = false := by
    rcases h with h | h <;> simp [h]
  simp [convertEffect, hg]

/-- What the guard of line 66 does when the amount `"100"` is cleared at the rate `0.92`: the
effect runs and the converted amount stays `"92.00"`. -/
theorem cleared_amount_keeps_converted :
    (run eurResponse [(.settle 0, .rejected), (.amountChange "", .rejected)]).ui.amount = "" ∧
    (run eurResponse [(.settle 0, .rejected), (.amountChange "", .rejected)]).ui.exchangeRate
      = parseFloat "0.92" ∧
    (run eurResponse [(.settle 0, .rejected), (.amountChange "", .rejected)]).ui.convertedAmount
      = .str "92.00" ∧
    (render (run eurResponse [(.settle 0, .rejected), (.amountChange "", .rejected)]).ui).result
      = .converted "92.00 EUR" := by
  decide!

/-- C5, amended: in every state reached from the mount, once the effects of its last render
have run, if the rate is truthy (not `0`) and the amount is not empty then the converted
amount is `toFixed(2)` of the parsed amount times the rate, for the current amount and the
current rate.  In a state with a truthy rate and an amount that is not empty the effect sets
the converted amount to that text; and the state at the end of a commit is the last state
that the commit renders. -/
theorem C5_converted_amount_after_effects (first : FetchOutcome)
    (events : List (Event × FetchOutcome)) (prev : Option State) (next : State)
    (net : FetchOutcome) :
    ((run first events).ui.exchangeRate.truthy = true → (run first events).ui.amount ≠ "" →
      (run first events).ui.convertedAmount =
        .str (((parseFloat (run first events).ui.amount).mul
          (run first events).ui.exchangeRate).toFixed 2)) ∧
    (next.exchangeRate.truthy = true → next.amount ≠ "" →
      convertEffect next =
        [.setConvertedAmount (.str (((parseFloat next.amount).mul next.exchangeRate).toFixed 2))]) ∧
    ((commit prev next net).renders = [] ∨
      (commit prev next net).renders.getLast? = some (commit prev next net).state) := by
  refine ⟨(run_consistent first events).1, fun ht ha => ?_, commit_renders_last prev next net⟩
  have hg : (next.exchangeRate.truthy && next.amount != "") = true := by simp [ht, ha]
  unfold convertEffect
  rw [if_pos hg]

/-- C10, as stated, fails: in a reachable state whose source and target are both `USD`, with
the swap button enabled, a swap leaves the pair as it is and the fetcher does not run. -/
theorem C10_swap_of_equal_pair_runs_no_fetch :
    (run .rejected [(.settle 0, .rejected), (.selectTo .USD, .rejected)]).ui.fromCurrency
      = .USD ∧
    (run .rejected [(.settle 0, .rejected), (.selectTo .USD, .rejected)]).ui.toCurrency
      = .USD ∧
    (render (run .rejected [(.settle 0, .rejected), (.selectTo .USD, .rejected)]).ui).swapDisabled
      = false ∧
    (commit (some (run .rejected [(.settle 0, .rejected), (.selectTo .USD, .rejected)]).ui)
      (swapCurrencies (run .rejected [(.settle 0, .rejected), (.selectTo .USD, .rejected)]).ui)
      eurResponse).fetchRuns = [] := by
  decide!

theorem commit_fetchRuns (prev next : State) (net : FetchOutcome) :
    (commit (some prev) next net).fetchRuns =
      if fetchDeps prev = fetchDeps next then [] else [fetchExchangeRate next net] := by
  unfold commit depsChanged
  by_cases h : fetchDeps prev = fetchDeps next <;> simp [h]

/-- C10, amended: a commit runs the fetcher once when the pair (source, target) differs from
that of the previous render and not at all when it does not; so a swap in a state whose source
differs from its target runs the fetcher exactly once, for the new pair, with one request
for the new source, and a swap in a state whose source equals its target runs no fetch. -/
theorem C10_fetch_runs_per_pair_change (prev next s : State) (net : FetchOutcome) :
    ((commit (some prev) next net).fetchRuns =
      if (prev.fromCurrency, prev.toCurrency) = (next.fromCurrency, next.toCurrency) then []
      else [fetchExchangeRate next net]) ∧
    (s.fromCurrency ≠ s.toCurrency →
      (commit (some s) (swapCurrencies s) net).fetchRuns
        = [fetchExchangeRate (swapCurrencies s) net] ∧
      (fetchExchangeRate (swapCurrencies s) net).requests = [requestUrl s.toCurrency] ∧
      ((swapCurrencies s).fromCurrency, (swapCurrencies s).toCurrency)
        = (s.toCurrency, s.fromCurrency)) ∧
    (s.fromCurrency = s.toCurrency → (commit (some s) (swapCurrencies s) net).fetchRuns = []) := by
  refine ⟨commit_fetchRuns prev next net, ?_, ?_⟩
  · intro h
    refine ⟨?_, ?_, rfl⟩
    · rw [commit_fetchRuns, if_neg]
      intro heq
      have h1 : s.fromCurrency = s.toCurrency := congrArg Prod.fst heq
      exact h h1
    · have h2 : (swapCurrencies s).fromCurrency ≠ (swapCurrencies s).toCurrency :=
        fun heq => h heq.symm
      unfold fetchExchangeRate
      rw [if_neg h2]
      rfl
  · intro h
    rw [commit_fetchRuns, if_pos]
    show (s.fromCurrency, s.toCurrency) = (s.toCurrency, s.fromCurrency)
    rw [h]

/-! ## The claims on the derived amount and on the rendering -/

theorem magnitude_lt_iff (m e : Nat) (b : Nat) :
    magnitude m e < b ↔ m * 2 ^ e < b * 2 ^ 1074 := by
  unfold magnitude
  have hq : 0 < 2 ^ 1074 := by positivity
  generalize 2 ^ 1074 = q at hq ⊢
  have hq' : (0 : ℚ) < q := by exact_mod_cast hq
  rw [div_lt_iff₀ hq']
  exact_mod_cast Iff.rfl

theorem le_magnitude_iff (m e : Nat) (b : Nat) :
    (b : ℚ) ≤ magnitude m e ↔ b * 2 ^ 1074 ≤ m * 2 ^ e := by
  unfold magnitude
  have hq : 0 < 2 ^ 1074 := by positivity
  generalize 2 ^ 1074 = q at hq ⊢
  have hq' : (0 : ℚ) < q := by exact_mod_cast hq
  rw [le_div_iff₀ hq']
  exact_mod_cast Iff.rfl

theorem toFixed_large (m e f : Nat) (h : 10 ^ 21 * 2 ^ 1074 ≤ m * 2 ^ e) :
    (JSNumber.fin false m e).toFixed f = numberToString (.fin false m e) ∧
      numberToString (.fin false m e) = numberToStringPos m e := by
  have hm : m ≠ 0 := by
    rintro rfl
    rw [Nat.zero_mul] at h
    have : 0 < 10 ^ 21 * 2 ^ 1074 := by positivity
    omega
  have h2 : numberToString (.fin false m e) = numberToStringPos m e := by
    unfold numberToString
    simp only [hm, if_false]
    rfl
  refine ⟨?_, h2⟩
  rw [h2]
  unfold JSNumber.toFixed
  simp only
  rw [if_pos h]
  simp

/-- C2, as stated, fails.  The amount `"1000000000000000000000"` passes the filter and
parses to the Number `10^21`; with the rate `1` the effect sets the converted amount to
`"1e+21"`, which is not a text with two decimal places.  And the amount
`"0.124999999999999999"` with the rate `1` gives `"0.13"`, although the exact product
`0.124999999999999999` is nearer to `0.12` than to `0.13`: what is rounded to two places is
the binary64 product, here `0.125`. -/
theorem C2_large_or_inexact_product :
    amountAccepted "1000000000000000000000" = true ∧
    parseFloat "1000000000000000000000" = .fin false 7629394531250000 1091 ∧
    7629394531250000 * 2 ^ 1091 = 10 ^ 21 * 2 ^ 1074 ∧
    convertEffect { initialState with amount := "1000000000000000000000", exchangeRate := .one }
      = [.setConvertedAmount (.str "1e+21")] ∧
    (¬ ∃ n, IsFixedText "1e+21" 2 n) ∧
    amountAccepted "0.124999999999999999" = true ∧
    (parseFloat "0.124999999999999999").mul .one = .fin false (2 ^ 52) 1019 ∧
    convertEffect { initialState with amount := "0.124999999999999999", exchangeRate := .one }
      = [.setConvertedAmount (.str "0.13")] ∧
    |(124999999999999999 : ℚ) / 10 ^ 18 * 1 - 12 / 100|
      < |(124999999999999999 : ℚ) / 10 ^ 18 * 1 - 13 / 100| := by
  refine ⟨by decide!, by decide!, by decide!, by decide!, ?_, by decide!, by decide!, by decide!,
    ?_⟩
  · rintro ⟨n, a, b, h, -⟩
    have hmem : '.' ∈ "1e+21".toList := by
      rw [h]
      simp
    revert hmem
    decide
  · rw [abs_lt]
    constructor <;> norm_num [abs_of_neg, abs_of_pos]

theorem convertEffect_of_truthy (s : State) (ht : s.exchangeRate.truthy = true)
    (ha : s.amount ≠ "") :
    convertEffect s =
      [.setConvertedAmount (.str (((parseFloat s.amount).mul s.exchangeRate).toFixed 2))] := by
  have hg : (s.exchangeRate.truthy && s.amount != "") = true := by simp [ht, ha]
  unfold convertEffect
  rw [if_pos hg]

theorem convertEffect_example (s : State) (A : String) (R : JSNumber) (t : String)
    (hR : R.truthy = true) (hA : A ≠ "") (ht : ((parseFloat A).mul R).toFixed 2 = t) :
    convertEffect { s with amount := A, exchangeRate := R } =
      [.setConvertedAmount (.str t)] := by
  rw [convertEffect_of_truthy _ hR hA]
  exact congrArg (fun t => [Update.setConvertedAmount (.str t)]) ht

/-- C2, amended: for every non-empty amount string `A` that the filter accepts and that
parses to a number, and every finite rate `R > 0`, the effect sets the converted amount to
`toFixed(2)` of the binary64 product `P` of the parsed amount and the rate.  The parsed
amount is the Number nearest to the decimal that `A` denotes, and `P` is a Number nearest to
the exact product of the parsed amount and the rate; `P` is finite and not negative, or
`+Infinity`.  When `P` is finite and below `10^21` the text has exactly two digits after the
point and denotes the hundredth nearest to `P`; when `P` is `10^21` or more the text is that
of `Number::toString` for `P`, and when `P` is `+Infinity` it is `"Infinity"`.  The amount
`"100"` with the rate `0.92` gives `"92.00"` and `"500"` gives `"460.00"`; the amount
`"1000000000000000000000"` with the rate `1` gives `"1e+21"`, `"1500000000000000000000"` gives
`"1.5e+21"`, and the amount `"10"` with the largest finite rate gives `"Infinity"`. -/
theorem C2_converted_amount_is_toFixed (s : State) (A : String) (mR eR : Nat)
    (hne : A ≠ "") (hacc : amountAccepted A = true) (hnum : parseFloat A ≠ .nan)
    (hR : 0 < mR) :
    convertEffect { s with amount := A, exchangeRate := .fin false mR eR } =
      [.setConvertedAmount (.str (((parseFloat A).mul (.fin false mR eR)).toFixed 2))] ∧
    parseFloat A = roundDouble false (decimalNumerator A) (10 ^ decimalPlaces A) ∧
    (∀ mA eA, parseFloat A = .fin false mA eA →
      |magnitude mA eA - (decimalNumerator A : ℚ) / (10 ^ decimalPlaces A : Nat)|
        ≤ magnitude 1 eA / 2) ∧
    (∀ mA eA m e, parseFloat A = .fin false mA eA →
      (parseFloat A).mul (.fin false mR eR) = .fin false m e →
      |magnitude m e - magnitude mA eA * magnitude mR eR| ≤ magnitude 1 e / 2) ∧
    ((parseFloat A).mul (.fin false mR eR) = .inf false ∨
      ∃ m e, (parseFloat A).mul (.fin false mR eR) = .fin false m e) ∧
    (∀ m e, (parseFloat A).mul (.fin false mR eR) = .fin false m e →
      magnitude m e < (10 ^ 21 : Nat) →
      ∃ n : Nat, IsFixedText (((parseFloat A).mul (.fin false mR eR)).toFixed 2) 2 n ∧
        |(n : ℚ) / 100 - magnitude m e| ≤ 1 / 200) ∧
    (∀ m e, (parseFloat A).mul (.fin false mR eR) = .fin false m e →
      ((10 ^ 21 : Nat) : ℚ) ≤ magnitude m e →
      ((parseFloat A).mul (.fin false mR eR)).toFixed 2 =
          numberToString ((parseFloat A).mul (.fin false mR eR)) ∧
        numberToString ((parseFloat A).mul (.fin false mR eR)) = numberToStringPos m e) ∧
    ((parseFloat A).mul (.fin false mR eR) = .inf false →
      ((parseFloat A).mul (.fin false mR eR)).toFixed 2 = "Infinity") ∧
    convertEffect { s with amount := "100", exchangeRate := parseFloat "0.92" } =
      [.setConvertedAmount (.str "92.00")] ∧
    convertEffect { s with amount := "500", exchangeRate := parseFloat "0.92" } =
      [.setConvertedAmount (.str "460.00")] ∧
    convertEffect { s with amount := "1000000000000000000000", exchangeRate := .one } =
      [.setConvertedAmount (.str "1e+21")] ∧
    convertEffect { s with amount := "1500000000000000000000", exchangeRate := .one } =
      [.setConvertedAmount (.str "1.5e+21")] ∧
    convertEffect { s with amount := "10", exchangeRate := .fin false (2 ^ 53 - 1) 2045 } =
      [.setConvertedAmount (.str "Infinity")] := by
  have hparse := parseFloat_decimal A hacc hnum
  refine ⟨?_, hparse, ?_, ?_, ?_, ?_, ?_, ?_, ?_, ?_, ?_, ?_, ?_⟩
  · exact convertEffect_of_truthy _ (by simp [JSNumber.truthy]; omega) hne
  · intro mA eA hA
    rw [hparse] at hA
    exact roundDouble_nearest _ _ _ _ mA eA (by positivity) hA
  · intro mA eA m e hA hP
    rw [hA] at hP
    exact mul_nearest mA eA mR eR m e hP
  · rw [hparse]
    exact mul_positive_cases _ mR eR (by omega) (roundDouble_false_cases _ _)
  · intro m e hP hlt
    rw [hP]
    have hlt' : m * 2 ^ e < 10 ^ 21 * 2 ^ 1074 := (magnitude_lt_iff m e _).1 hlt
    refine ⟨_, toFixed_fixedText m e 2 (by norm_num) hlt', ?_⟩
    obtain ⟨h1, h2⟩ := toFixed_nearest m e 2
    rw [abs_le]
    constructor <;> linarith
  · intro m e hP hge
    rw [hP]
    exact toFixed_large m e 2 ((le_magnitude_iff m e _).1 hge)
  · intro hP
    rw [hP]
    rfl
  · exact convertEffect_example s "100" (parseFloat "0.92") "92.00" (by decide!) (by decide)
      (by decide!)
  · exact convertEffect_example s "500" (parseFloat "0.92") "460.00" (by decide!) (by decide)
      (by decide!)
  · exact convertEffect_example s "1000000000000000000000" .one "1e+21" (by decide!)
      (by decide) (by decide!)
  · exact convertEffect_example s "1500000000000000000000" .one "1.5e+21" (by decide!)
      (by decide) (by decide!)
  · exact convertEffect_example s "10" (.fin false (2 ^ 53 - 1) 2045) "Infinity" (by decide!)
      (by decide) (by decide!)

theorem C2_converted_amount_is_toFixed_witness :
    convertEffect
        { initialState with amount := "12.5", exchangeRate := .fin false 8286623314361713 1021 }
      = [.setConvertedAmount (.str (((parseFloat "12.5").mul
        (.fin false 8286623314361713 1021)).toFixed 2))] ∧
    ((parseFloat "12.5").mul (.fin false 8286623314361713 1021)).toFixed 2 = "11.50" :=
  ⟨(C2_converted_amount_is_toFixed initialState "12.5" 8286623314361713 1021 (by decide)
      (by decide) (by decide!) (by decide)).1, by decide!⟩

/-- C9, as stated, fails: in the initial state, which is the first render, the loading flag
is false and the error message is empty, the panel shows `"0 EUR"`, and in place of the
unit-rate line the falsy rate itself is rendered, as `"0"`. -/
theorem C9_first_render_has_no_rate_line :
    initialState.loading = false ∧ initialState.error = "" ∧
    (render initialState).result = .converted "0 EUR" ∧
    (render initialState).rateInfo = .number "0" := by
  decide!

theorem resultPanel_cases (s : State) :
    (s.loading = true → resultPanel s = .spinner ∧ rateInfo s = .nothing) ∧
    (s.loading = false → s.error ≠ "" →
      resultPanel s = .errorText s.error ∧ rateInfo s = .nothing) ∧
    (s.loading = false → s.error = "" →
      resultPanel s = .converted (s.convertedAmount.text ++ " " ++ s.toCurrency.code) ∧
      (s.exchangeRate.truthy = true → rateInfo s =
        .line ("1 " ++ s.fromCurrency.code ++ " = " ++ s.exchangeRate.toFixed 4 ++ " "
          ++ s.toCurrency.code))) := by
  refine ⟨fun hl => ?_, fun hl he => ?_, fun hl he => ⟨?_, fun ht => ?_⟩⟩
  · simp [resultPanel, rateInfo, hl]
  · simp [resultPanel, rateInfo, hl, he]
  · simp [resultPanel, hl, he]
  · simp [rateInfo, hl, he, ht]

/-- C9, amended: the result panel shows the spinner when the loading flag is true; else the
error message, and not the converted amount, when the message is not empty; else the
converted amount followed by the target code.  The unit-rate line is shown in the third case
only, and only when the rate is truthy (not `0`); it reads `1 SRC = X DST` with `X` the rate
as `toFixed(4)` writes it, which for a finite rate that is not negative and below `10^21` has
exactly four digits after the point and denotes the nearest multiple of `10^-4`.  After the
mount and the answer `{rates: {EUR: 0.92}}` the view shows `"92.00 EUR"` and
`"1 USD = 0.9200 EUR"`. -/
theorem C9_result_panel_priority (s : State) :
    (s.loading = true → (render s).result = .spinner ∧ (render s).rateInfo = .nothing) ∧
    (s.loading = false → s.error ≠ "" →
      (render s).result = .errorText s.error ∧ (render s).rateInfo = .nothing) ∧
    (s.loading = false → s.error = "" →
      (render s).result = .converted (s.convertedAmount.text ++ " " ++ s.toCurrency.code) ∧
      (s.exchangeRate.truthy = true → (render s).rateInfo =
        .line ("1 " ++ s.fromCurrency.code ++ " = " ++ s.exchangeRate.toFixed 4 ++ " "
          ++ s.toCurrency.code))) ∧
    (∀ m e, s.exchangeRate = .fin false m e → magnitude m e < (10 ^ 21 : Nat) →
      ∃ n : Nat, IsFixedText (s.exchangeRate.toFixed 4) 4 n ∧
        |(n : ℚ) / 10 ^ 4 - magnitude m e| ≤ 1 / (2 * 10 ^ 4)) ∧
    (run eurResponse [(.settle 0, .rejected)]).ui.amount = "100" ∧
    (render (run eurResponse [(.settle 0, .rejected)]).ui).result = .converted "92.00 EUR" ∧
    (render (run eurResponse [(.settle 0, .rejected)]).ui).rateInfo
      = .line "1 USD = 0.9200 EUR" := by
  refine ⟨(resultPanel_cases s).1, (resultPanel_cases s).2.1, (resultPanel_cases s).2.2, ?_,
    by decide!, by decide!, by decide!⟩
  intro m e hs hlt
  rw [hs]
  have hlt' : m * 2 ^ e < 10 ^ 21 * 2 ^ 1074 := (magnitude_lt_iff m e _).1 hlt
  refine ⟨_, toFixed_fixedText m e 4 (by norm_num) hlt', ?_⟩
  obtain ⟨h1, h2⟩ := toFixed_nearest m e 4
  rw [abs_le, div_sub' _ _ _ (by norm_num : (10 : ℚ) ^ 4 ≠ 0)]
  constructor
  · rw [le_div_iff₀ (by norm_num)]
    linarith
  · rw [div_le_iff₀ (by norm_num)]
    linarith

end CurrencyConverter
